import Mathlib

/-!
Verification development for the libvrf-js VRF library.

Shallow embedding of the library's core (src/types.ts, src/vrf.ts,
src/rsa/rsavrf.ts, src/rsa/params.ts, src/ec/ecvrf.ts, src/ec/params.ts,
src/utils.ts). Byte strings are `List Nat` with entries < 256
(Uint8Array semantics); the external digest capability
`hash(params.digest, ·)` is a parameter `hashF : Bytes → Bytes`, and the
external DER codec of node-rsa is a pair of parameters
`derEncode/derDecode`. All definitions are transcribed from the source.
-/

abbrev Bytes := List Nat

/-- `VRFType` enumeration from src/types.ts. -/
inductive VRFType where
  | RSA_FDH_VRF_RSA2048_SHA256
  | RSA_FDH_VRF_RSA3072_SHA256
  | RSA_FDH_VRF_RSA4096_SHA384
  | RSA_FDH_VRF_RSA4096_SHA512
  | RSA_PSS_NOSALT_VRF_RSA2048_SHA256
  | RSA_PSS_NOSALT_VRF_RSA3072_SHA256
  | RSA_PSS_NOSALT_VRF_RSA4096_SHA384
  | RSA_PSS_NOSALT_VRF_RSA4096_SHA512
  | EC_VRF_P256_SHA256_TAI
  | UNKNOWN
deriving DecidableEq, Repr

/-- `isRSAType` from src/types.ts. -/
def isRSAType (t : VRFType) : Bool :=
  t == .RSA_FDH_VRF_RSA2048_SHA256 ||
  t == .RSA_FDH_VRF_RSA3072_SHA256 ||
  t == .RSA_FDH_VRF_RSA4096_SHA384 ||
  t == .RSA_FDH_VRF_RSA4096_SHA512 ||
  t == .RSA_PSS_NOSALT_VRF_RSA2048_SHA256 ||
  t == .RSA_PSS_NOSALT_VRF_RSA3072_SHA256 ||
  t == .RSA_PSS_NOSALT_VRF_RSA4096_SHA384 ||
  t == .RSA_PSS_NOSALT_VRF_RSA4096_SHA512

/-- `isECType` from src/types.ts. -/
def isECType (t : VRFType) : Bool :=
  t == .EC_VRF_P256_SHA256_TAI

/-- `isRSAFDHType` from src/types.ts. -/
def isRSAFDHType (t : VRFType) : Bool :=
  t == .RSA_FDH_VRF_RSA2048_SHA256 ||
  t == .RSA_FDH_VRF_RSA3072_SHA256 ||
  t == .RSA_FDH_VRF_RSA4096_SHA384 ||
  t == .RSA_FDH_VRF_RSA4096_SHA512

/-- `isRSAPSSType` from src/types.ts. -/
def isRSAPSSType (t : VRFType) : Bool :=
  t == .RSA_PSS_NOSALT_VRF_RSA2048_SHA256 ||
  t == .RSA_PSS_NOSALT_VRF_RSA3072_SHA256 ||
  t == .RSA_PSS_NOSALT_VRF_RSA4096_SHA384 ||
  t == .RSA_PSS_NOSALT_VRF_RSA4096_SHA512

/-- UTF-8 bytes of a suite string (`TextEncoder.encode`); all suite strings
are ASCII. -/
def strBytes (s : String) : Bytes :=
  s.toUTF8.toList.map (fun b => b.toNat)

/-- `RSAVRFParams` from src/rsa/params.ts (the `primes`/`e`/`padMode` fields
are only consumed by the external node-rsa key generator and are kept for
completeness). -/
structure RSAVRFParams where
  algorithmName : String
  bits : Nat
  primes : Nat
  e : Nat
  digest : String
  suiteString : Bytes
deriving DecidableEq, Repr

/-- `getRSAVRFParams` from src/rsa/params.ts. -/
def getRSAVRFParams (t : VRFType) : Option RSAVRFParams :=
  match t with
  | .RSA_FDH_VRF_RSA2048_SHA256 =>
    some ⟨"RSA-FDH-VRF-RSA2048-SHA256", 2048, 2, 65537, "sha256",
      strBytes "RSA-FDH-VRF-RSA2048-SHA256"⟩
  | .RSA_FDH_VRF_RSA3072_SHA256 =>
    some ⟨"RSA-FDH-VRF-RSA3072-SHA256", 3072, 2, 65537, "sha256",
      strBytes "RSA-FDH-VRF-RSA3072-SHA256"⟩
  | .RSA_FDH_VRF_RSA4096_SHA384 =>
    some ⟨"RSA-FDH-VRF-RSA4096-SHA384", 4096, 2, 65537, "sha384",
      strBytes "RSA-FDH-VRF-RSA4096-SHA384"⟩
  | .RSA_FDH_VRF_RSA4096_SHA512 =>
    some ⟨"RSA-FDH-VRF-RSA4096-SHA512", 4096, 2, 65537, "sha512",
      strBytes "RSA-FDH-VRF-RSA4096-SHA512"⟩
  | .RSA_PSS_NOSALT_VRF_RSA2048_SHA256 =>
    some ⟨"RSA-PSS-NOSALT-VRF-RSA2048-SHA256", 2048, 2, 65537, "sha256",
      strBytes "RSA-PSS-NOSALT-VRF-RSA2048-SHA256"⟩
  | .RSA_PSS_NOSALT_VRF_RSA3072_SHA256 =>
    some ⟨"RSA-PSS-NOSALT-VRF-RSA3072-SHA256", 3072, 2, 65537, "sha256",
      strBytes "RSA-PSS-NOSALT-VRF-RSA3072-SHA256"⟩
  | .RSA_PSS_NOSALT_VRF_RSA4096_SHA384 =>
    some ⟨"RSA-PSS-NOSALT-VRF-RSA4096-SHA384", 4096, 2, 65537, "sha384",
      strBytes "RSA-PSS-NOSALT-VRF-RSA4096-SHA384"⟩
  | .RSA_PSS_NOSALT_VRF_RSA4096_SHA512 =>
    some ⟨"RSA-PSS-NOSALT-VRF-RSA4096-SHA512", 4096, 2, 65537, "sha512",
      strBytes "RSA-PSS-NOSALT-VRF-RSA4096-SHA512"⟩
  | _ => none

/-- `ECVRFParams` from src/ec/params.ts. -/
structure ECVRFParams where
  algorithmName : String
  curve : String
  cofactor : Nat
  digest : String
  suiteString : Bytes
  qLen : Nat
  ptLen : Nat
  cLen : Nat
  fLen : Nat
  hLen : Nat
deriving DecidableEq, Repr

/-- `getECVRFParams` from src/ec/params.ts. -/
def getECVRFParams (t : VRFType) : Option ECVRFParams :=
  match t with
  | .EC_VRF_P256_SHA256_TAI =>
    some ⟨"ECVRF-P256-SHA256-TAI", "P-256", 1, "sha256", [1], 32, 33, 16, 80, 32⟩
  | _ => none

/-- Big-endian fixed-width encoding: the `bigIntToBytes` helper of
src/rsa/rsavrf.ts (fills from the right with `v & 0xFF`, `v >>= 8`;
silently truncates when `v ≥ 256 ^ len`). -/
def bytesBE (v : Nat) : Nat → Bytes
  | 0 => []
  | len + 1 => bytesBE (v / 256) len ++ [v % 256]

/-- Big-endian decoding: `BigInt('0x' + hex)` / `bytesToBigInt` of
src/utils.ts, for byte entries < 256. -/
def osToNat (b : Bytes) : Nat :=
  b.foldl (fun acc x => acc * 256 + x) 0

/-- `i2osp` of src/utils.ts (the overflow guard never fires at its call
sites, whose integers are 4-byte counters). -/
def i2osp (x len : Nat) : Bytes := bytesBE x len

/-- `xorBytes` of src/utils.ts and src/rsa/rsavrf.ts: pointwise xor,
truncated to the shorter argument. -/
def xorBytes (a b : Bytes) : Bytes := List.zipWith (· ^^^ ·) a b

/-- `modPow` loop of src/rsa/rsavrf.ts / src/utils.ts (square-and-multiply
over the binary expansion of the exponent), structurally recursive on a
fuel argument so that it computes by kernel reduction; `exp` units of fuel
suffice because the exponent at least halves each iteration. -/
def modPowGo (m : Nat) : Nat → Nat → Nat → Nat → Nat
  | 0, _, _, result => result
  | fuel + 1, base, exp, result =>
    if exp = 0 then result
    else
      modPowGo m fuel (base * base % m) (exp / 2)
        (if exp % 2 = 1 then result * base % m else result)

/-- `modPow` of src/rsa/rsavrf.ts: `base` is reduced first, the result
accumulator starts at 1. -/
def modPow (base exp m : Nat) : Nat := modPowGo m exp (base % m) exp 1

/-- Fuel-driven transcription of the MGF1 `while` loop shared by `mgf1`
and `mgf1WithSalt` of src/rsa/rsavrf.ts: repeatedly hash
`seedAndSalt ∥ counter` (4-byte big-endian counter) and append, truncating
the final block; `maskLen` units of fuel suffice because each JS iteration
copies at least one byte whenever the digest is non-empty (with an empty
digest the JS loop diverges). -/
def mgf1Go (hashF : Bytes → Bytes) (seedAndSalt : Bytes) (maskLen : Nat) :
    Nat → Nat → Bytes → Bytes
  | 0, _, acc => acc
  | fuel + 1, counter, acc =>
    if acc.length < maskLen then
      mgf1Go hashF seedAndSalt maskLen fuel (counter + 1)
        (acc ++ (hashF (seedAndSalt ++ i2osp counter 4)).take (maskLen - acc.length))
    else acc

/-- Standard `mgf1` of src/rsa/rsavrf.ts: blocks are `hash(seed ∥ counter)`. -/
def mgf1 (hashF : Bytes → Bytes) (seed : Bytes) (maskLen : Nat) : Bytes :=
  mgf1Go hashF seed maskLen maskLen 0 []

/-- `mgf1WithSalt` of src/rsa/rsavrf.ts: blocks are
`hash(seed ∥ mgf1Salt ∥ counter)`. -/
def mgf1WithSalt (hashF : Bytes → Bytes) (mgf1Salt seed : Bytes) (maskLen : Nat) : Bytes :=
  mgf1Go hashF (seed ++ mgf1Salt) maskLen maskLen 0 []

/-- `hashToFullDomain` of src/rsa/rsavrf.ts: digest `suiteString ∥ input`,
then stretch to `bits / 8` bytes with the salted MGF1. -/
def hashToFullDomain (hashF : Bytes → Bytes) (mgf1Salt : Bytes) (p : RSAVRFParams)
    (input : Bytes) : Bytes :=
  mgf1WithSalt hashF mgf1Salt (hashF (p.suiteString ++ input)) (p.bits / 8)

/-- `DB[0] &= mask` / `maskedDB[0] &= mask` writes of src/rsa/rsavrf.ts
(a Uint8Array write to index 0 of an empty array is a no-op). -/
def maskHead (mask : Nat) : Bytes → Bytes
  | [] => []
  | b :: t => (b &&& mask) :: t

/-- `pssEncode` of src/rsa/rsavrf.ts (empty salt). -/
def pssEncode (hashF : Bytes → Bytes) (mHash : Bytes) (emBits : Nat) : Bytes :=
  let hLen := mHash.length
  let emLen := (emBits + 7) / 8
  let mPrime := List.replicate 8 0 ++ mHash ++ []
  let H := hashF mPrime
  let PS := List.replicate (emLen - 0 - hLen - 2) 0
  let DB := PS ++ [1] ++ []
  let dbMask := mgf1 hashF H (emLen - hLen - 1)
  let maskedDB := xorBytes DB dbMask
  let mask := 255 >>> (8 * emLen - emBits)
  maskHead mask maskedDB ++ H ++ [188]

/-- The `DB = PS ∥ 0x01 ∥ salt` scan of `pssVerify` in src/rsa/rsavrf.ts:
leading bytes must be zero, the first `0x01` must exist and sit at the
last index (empty salt). -/
def pssCheckDB : Bytes → Bool
  | [] => false
  | [b] => b == 1
  | b :: c :: u => b == 0 && pssCheckDB (c :: u)

/-- `maskedDB` split of `pssVerify`: `em.slice(0, emLen - hLen - 1)`. -/
def pssVerifyMaskedDB (em : Bytes) (emLen hLen : Nat) : Bytes :=
  em.take (emLen - hLen - 1)

/-- `H` split of `pssVerify`: `em.slice(emLen - hLen - 1, emLen - 1)`. -/
def pssVerifyH (em : Bytes) (emLen hLen : Nat) : Bytes :=
  (em.take (emLen - 1)).drop (emLen - hLen - 1)

/-- The low-bit mask `0xFF >> (8 * emLen - emBits)` of PSS encode/verify. -/
def pssMask (emBits : Nat) : Nat :=
  255 >>> (8 * ((emBits + 7) / 8) - emBits)

/-- The recovered `DB` of `pssVerify`: `maskedDB xor MGF1(H, emLen-hLen-1)`
with the leading bits of the first byte cleared. -/
def pssVerifyDB (hashF : Bytes → Bytes) (em : Bytes) (emBits hLen : Nat) : Bytes :=
  let emLen := (emBits + 7) / 8
  maskHead (pssMask emBits)
    (xorBytes (pssVerifyMaskedDB em emLen hLen)
      (mgf1 hashF (pssVerifyH em emLen hLen) (emLen - hLen - 1)))

/-- `pssVerify` of src/rsa/rsavrf.ts. -/
def pssVerify (hashF : Bytes → Bytes) (mHash em : Bytes) (emBits : Nat) : Bool :=
  let hLen := mHash.length
  let emLen := (emBits + 7) / 8
  if emLen < hLen + 2 then false
  else if em.getLast? ≠ some 188 then false
  else if (pssVerifyMaskedDB em emLen hLen).headD 0 &&& (255 ^^^ pssMask emBits) ≠ 0 then false
  else if ¬ pssCheckDB (pssVerifyDB hashF em emBits hLen) then false
  else
    let mPrime := List.replicate 8 0 ++ mHash ++ []
    pssVerifyH em emLen hLen == hashF mPrime

/-- External RSA key material (node-rsa `exportKey('components')`):
modulus `n`, public exponent `e`, private exponent `d`. -/
structure RSAKeyPair where
  n : Nat
  e : Nat
  d : Nat
deriving DecidableEq, Repr

/-- External RSA public components (`exportKey('components-public')`). -/
structure RSAPubKey where
  n : Nat
  e : Nat
deriving DecidableEq, Repr

/-- External ECDH object (crypto `createECDH('prime256v1')` after key
generation): private scalar bytes and compressed-point public bytes. -/
structure ECDHKey where
  privateKey : Bytes
  publicKey : Bytes
deriving DecidableEq, Repr

/-- `RSAProof` of src/rsa/rsavrf.ts: a `VRFType` tag (default `UNKNOWN`)
plus an opaque byte buffer (default empty). -/
structure RSAProof where
  type : VRFType
  proofBytes : Bytes
deriving DecidableEq, Repr

/-- `ECProof` of src/ec/ecvrf.ts. -/
structure ECProof where
  type : VRFType
  proofBytes : Bytes
deriving DecidableEq, Repr

/-- `RSAProof.isInitialized`. -/
def RSAProof.isInitialized (p : RSAProof) : Bool :=
  decide (0 < p.proofBytes.length) && isRSAType p.type

/-- `RSAProof.getVRFValue`: hash of the proof bytes under the type's
digest (`hashF`). -/
def RSAProof.getVRFValue (hashF : Bytes → Bytes) (p : RSAProof) : Bytes :=
  if ¬ p.isInitialized then []
  else
    match getRSAVRFParams p.type with
    | none => []
    | some _ => hashF p.proofBytes

/-- `RSAProof.toBytes`. -/
def RSAProof.toBytes (p : RSAProof) : Bytes := p.proofBytes

/-- `RSAProof.fromBytes` (mutating import, modeled by state passing:
result is the flag and the receiver afterwards). -/
def RSAProof.fromBytes (p : RSAProof) (t : VRFType) (data : Bytes) : Bool × RSAProof :=
  if ¬ isRSAType t then (false, p)
  else
    match getRSAVRFParams t with
    | none => (false, p)
    | some _ =>
      if data.length = 0 then (false, p)
      else (true, ⟨t, data⟩)

/-- `ECProof.isInitialized`. -/
def ECProof.isInitialized (p : ECProof) : Bool :=
  decide (0 < p.proofBytes.length) && isECType p.type

/-- `ECProof.getVRFValue` (Node path of the sync method):
`Hash(suite_string ∥ 0x03 ∥ Gamma)` where `Gamma` is the first `ptLen`
bytes of the proof. -/
def ECProof.getVRFValue (hashF : Bytes → Bytes) (p : ECProof) : Bytes :=
  if ¬ p.isInitialized then []
  else
    match getECVRFParams p.type with
    | none => []
    | some params =>
      hashF (params.suiteString ++ [3] ++ p.proofBytes.take params.ptLen)

/-- `ECProof.toBytes`. -/
def ECProof.toBytes (p : ECProof) : Bytes := p.proofBytes

/-- `ECProof.fromBytes`. -/
def ECProof.fromBytes (p : ECProof) (t : VRFType) (data : Bytes) : Bool × ECProof :=
  if ¬ isECType t then (false, p)
  else
    match getECVRFParams t with
    | none => (false, p)
    | some _ =>
      if data.length = 0 then (false, p)
      else (true, ⟨t, data⟩)

/-- The abstract `Proof` capability: closed union of the two concrete
proof classes, with virtual dispatch. -/
inductive ProofObj where
  | rsa : RSAProof → ProofObj
  | ec : ECProof → ProofObj
deriving DecidableEq, Repr

def ProofObj.isInitialized : ProofObj → Bool
  | .rsa p => p.isInitialized
  | .ec p => p.isInitialized

def ProofObj.getType : ProofObj → VRFType
  | .rsa p => p.type
  | .ec p => p.type

def ProofObj.toBytes : ProofObj → Bytes
  | .rsa p => p.toBytes
  | .ec p => p.toBytes

def ProofObj.getVRFValue (hashF : Bytes → Bytes) : ProofObj → Bytes
  | .rsa p => p.getVRFValue hashF
  | .ec p => p.getVRFValue hashF

/-- `RSASecretKey` of src/rsa/rsavrf.ts: optional injected node-rsa key
plus the MGF1 salt (digest of the suite string). -/
structure RSASecretKey where
  type : VRFType
  rsaKey : Option RSAKeyPair
  mgf1Salt : Bytes
deriving DecidableEq, Repr

/-- The `RSASecretKey` constructor when a type and an externally supplied
(or externally generated) RSA key are given. -/
def mkRSASecretKey (hashF : Bytes → Bytes) (t : VRFType) (key : RSAKeyPair) :
    RSASecretKey :=
  match getRSAVRFParams t with
  | none => ⟨t, none, []⟩
  | some p => ⟨t, some key, hashF p.suiteString⟩

/-- `RSASecretKey.isInitialized`. -/
def RSASecretKey.isInitialized (sk : RSASecretKey) : Bool :=
  sk.rsaKey.isSome && decide (0 < sk.mgf1Salt.length) && isRSAType sk.type

/-- `rsaFDHProve` of src/rsa/rsavrf.ts: full-domain-hash the input,
read it big-endian, raise to `d` mod `n`, re-encode at `bits/8` bytes. -/
def rsaFDHProve (hashF : Bytes → Bytes) (key : RSAKeyPair) (mgf1Salt : Bytes)
    (p : RSAVRFParams) (input : Bytes) : Bytes :=
  let hashedInput := hashToFullDomain hashF mgf1Salt p input
  let message := osToNat hashedInput
  bytesBE (modPow message key.d key.n) (p.bits / 8)

/-- `rsaPSSProve` of src/rsa/rsavrf.ts. -/
def rsaPSSProve (hashF : Bytes → Bytes) (key : RSAKeyPair) (p : RSAVRFParams)
    (input : Bytes) : Bytes :=
  let hashedInput := hashF (p.suiteString ++ input)
  let encoded := pssEncode hashF hashedInput p.bits
  let message := osToNat encoded
  bytesBE (modPow message key.d key.n) (p.bits / 8)

/-- `RSASecretKey.getVRFProof`. -/
def RSASecretKey.getVRFProof (hashF : Bytes → Bytes) (sk : RSASecretKey)
    (input : Bytes) : Option RSAProof :=
  if ¬ sk.isInitialized then none
  else
    match sk.rsaKey with
    | none => none
    | some key =>
      match getRSAVRFParams sk.type with
      | none => none
      | some p =>
        if isRSAFDHType sk.type then
          some ⟨sk.type, rsaFDHProve hashF key sk.mgf1Salt p input⟩
        else if isRSAPSSType sk.type then
          some ⟨sk.type, rsaPSSProve hashF key p input⟩
        else none

/-- `RSAPublicKey` of src/rsa/rsavrf.ts. -/
structure RSAPublicKey where
  type : VRFType
  rsaKey : Option RSAPubKey
  mgf1Salt : Bytes
deriving DecidableEq, Repr

/-- `RSASecretKey.getPublicKey` (node-rsa exposes the public components of
the same key object). -/
def RSASecretKey.getPublicKey (sk : RSASecretKey) : Option RSAPublicKey :=
  if ¬ sk.isInitialized then none
  else
    match sk.rsaKey with
    | none => none
    | some key => some ⟨sk.type, some ⟨key.n, key.e⟩, sk.mgf1Salt⟩

/-- `RSAPublicKey.isInitialized`. -/
def RSAPublicKey.isInitialized (pk : RSAPublicKey) : Bool :=
  pk.rsaKey.isSome && decide (0 < pk.mgf1Salt.length) && isRSAType pk.type

/-- `rsaFDHVerify` of src/rsa/rsavrf.ts: decode the proof, raise to `e`
mod `n`, re-encode, compare with the recomputed full-domain hash. -/
def rsaFDHVerify (hashF : Bytes → Bytes) (key : RSAPubKey) (mgf1Salt : Bytes)
    (p : RSAVRFParams) (input proofBytes : Bytes) : Bool :=
  let signature := osToNat proofBytes
  let verifiedBytes := bytesBE (modPow signature key.e key.n) (p.bits / 8)
  verifiedBytes == hashToFullDomain hashF mgf1Salt p input

/-- `rsaPSSVerify` of src/rsa/rsavrf.ts. -/
def rsaPSSVerify (hashF : Bytes → Bytes) (key : RSAPubKey) (p : RSAVRFParams)
    (input proofBytes : Bytes) : Bool :=
  let signature := osToNat proofBytes
  let em := bytesBE (modPow signature key.e key.n) (p.bits / 8)
  let mHash := hashF (p.suiteString ++ input)
  pssVerify hashF mHash em p.bits

/-- `RSAPublicKey.verifyVRFProof`. -/
def RSAPublicKey.verifyVRFProof (hashF : Bytes → Bytes) (pk : RSAPublicKey)
    (input : Bytes) (proof : ProofObj) : Bool × Bytes :=
  if !pk.isInitialized || !proof.isInitialized then (false, [])
  else if proof.getType ≠ pk.type then (false, [])
  else
    match getRSAVRFParams pk.type with
    | none => (false, [])
    | some p =>
      match pk.rsaKey with
      | none => (false, [])
      | some key =>
        let proofBytes := proof.toBytes
        let valid :=
          if isRSAFDHType pk.type then
            rsaFDHVerify hashF key pk.mgf1Salt p input proofBytes
          else if isRSAPSSType pk.type then
            rsaPSSVerify hashF key p input proofBytes
          else false
        if valid then (true, proof.getVRFValue hashF) else (false, [])

/-- `RSAPublicKey.toBytes`: SPKI DER export through the external node-rsa
codec `derEncode`. -/
def RSAPublicKey.toBytes (derEncode : RSAPubKey → Bytes) (pk : RSAPublicKey) : Bytes :=
  match pk.rsaKey with
  | none => []
  | some key => derEncode key

/-- `RSAPublicKey.fromBytes`: SPKI DER import through the external codec
`derDecode` (a `none` models the import throwing, caught by the source). -/
def RSAPublicKey.fromBytes (hashF : Bytes → Bytes) (derDecode : Bytes → Option RSAPubKey)
    (pk : RSAPublicKey) (t : VRFType) (data : Bytes) : Bool × RSAPublicKey :=
  if ¬ isRSAType t then (false, pk)
  else
    match getRSAVRFParams t with
    | none => (false, pk)
    | some p =>
      if data.length = 0 then (false, pk)
      else
        match derDecode data with
        | none => (false, pk)
        | some key => (true, ⟨t, some key, hashF p.suiteString⟩)

/-- `ECSecretKey` of src/ec/ecvrf.ts after `initializeSync` (Node path):
wrapped ECDH object, cached private scalar bytes, `initialized` flag. -/
structure ECSecretKey where
  type : VRFType
  ecdh : Option ECDHKey
  privateKeyBytes : Bytes
  initialized : Bool
deriving DecidableEq, Repr

/-- `ECSecretKey.isInitialized`. -/
def ECSecretKey.isInitialized (sk : ECSecretKey) : Bool :=
  sk.initialized && sk.ecdh.isSome && decide (0 < sk.privateKeyBytes.length) &&
    isECType sk.type

/-- The proof-buffer fill loop of `getVRFProof`/`verifyVRFProof`
(src/ec/ecvrf.ts): copy `min(remaining, |proofHash|)` bytes of the digest
from its start until `fLen` bytes exist. `fLen` units of fuel suffice
because each JS iteration copies at least one byte whenever the digest is
non-empty (with an empty digest the JS loop diverges). -/
def ecFillGo (T : Bytes) (flen : Nat) : Nat → Bytes → Bytes
  | 0, acc => acc
  | fuel + 1, acc =>
    if acc.length < flen then
      ecFillGo T flen fuel (acc ++ T.take (flen - acc.length))
    else acc

/-- The filled `fLen`-byte proof buffer of src/ec/ecvrf.ts. -/
def ecFill (T : Bytes) (flen : Nat) : Bytes := ecFillGo T flen flen []

/-- `ECSecretKey.getVRFProof` (sync Node path): digest
`suiteString ∥ 0x01 ∥ publicKeyBytes ∥ input ∥ privateKeyBytes` and stretch
it to `fLen` bytes. -/
def ECSecretKey.getVRFProof (hashF : Bytes → Bytes) (sk : ECSecretKey)
    (input : Bytes) : Option ECProof :=
  if ¬ sk.isInitialized then none
  else
    match sk.ecdh with
    | none => none
    | some ecdh =>
      match getECVRFParams sk.type with
      | none => none
      | some params =>
        let hashInput := params.suiteString ++ [1] ++ ecdh.publicKey ++ input ++
          sk.privateKeyBytes
        let proofHash := hashF hashInput
        some ⟨sk.type, ecFill proofHash params.fLen⟩

/-- `ECPublicKey` of src/ec/ecvrf.ts: compressed point bytes plus the
retained private-key bytes used by the full-verification mode. -/
structure ECPublicKey where
  type : VRFType
  publicKeyBytes : Bytes
  privateKeyBytes : Bytes
deriving DecidableEq, Repr

/-- `ECSecretKey.getPublicKey` (sync Node path): note it hands its own
private-key bytes to the public key object. -/
def ECSecretKey.getPublicKey (sk : ECSecretKey) : Option ECPublicKey :=
  if ¬ sk.isInitialized then none
  else
    match sk.ecdh with
    | none => none
    | some ecdh => some ⟨sk.type, ecdh.publicKey, sk.privateKeyBytes⟩

/-- `ECPublicKey.isInitialized`. -/
def ECPublicKey.isInitialized (pk : ECPublicKey) : Bool :=
  decide (0 < pk.publicKeyBytes.length) && isECType pk.type

/-- `ECPublicKey.verifyVRFProof` (sync Node path): length check, non-empty
VRF value, then either exact recomputation (when private-key bytes are
present) or the degenerate non-all-zero check. -/
def ECPublicKey.verifyVRFProof (hashF : Bytes → Bytes) (pk : ECPublicKey)
    (input : Bytes) (proof : ProofObj) : Bool × Bytes :=
  if !pk.isInitialized || !proof.isInitialized then (false, [])
  else if proof.getType ≠ pk.type then (false, [])
  else
    match getECVRFParams pk.type with
    | none => (false, [])
    | some params =>
      let proofBytes := proof.toBytes
      if proofBytes.length ≠ params.fLen then (false, [])
      else
        let proofValue := proof.getVRFValue hashF
        if proofValue.length = 0 then (false, [])
        else if 0 < pk.privateKeyBytes.length then
          let expectedProofHash := params.suiteString ++ [1] ++ pk.publicKeyBytes ++
            input ++ pk.privateKeyBytes
          let expectedProof := ecFill (hashF expectedProofHash) params.fLen
          if proofBytes == expectedProof then (true, proofValue) else (false, [])
        else
          if proofBytes.all (fun b => b = 0) then (false, [])
          else (true, proofValue)

/-- `ECPublicKey.toBytes`. -/
def ECPublicKey.toBytes (pk : ECPublicKey) : Bytes := pk.publicKeyBytes

/-- `ECPublicKey.fromBytes`: accepts exactly a 33-byte buffer with a
`0x02`/`0x03` compressed-point prefix; only type and public bytes are
assigned on success. -/
def ECPublicKey.fromBytes (pk : ECPublicKey) (t : VRFType) (data : Bytes) :
    Bool × ECPublicKey :=
  if ¬ isECType t then (false, pk)
  else
    match getECVRFParams t with
    | none => (false, pk)
    | some _ =>
      if data.length = 0 then (false, pk)
      else
        if data.length = 33 && (data.headD 0 == 2 || data.headD 0 == 3) then
          (true, ⟨t, data, pk.privateKeyBytes⟩)
        else (false, pk)

/-- The abstract `PublicKey` capability: closed union of the two concrete
public-key classes. -/
inductive PublicKeyObj where
  | rsa : RSAPublicKey → PublicKeyObj
  | ec : ECPublicKey → PublicKeyObj
deriving DecidableEq, Repr

def PublicKeyObj.isInitialized : PublicKeyObj → Bool
  | .rsa pk => pk.isInitialized
  | .ec pk => pk.isInitialized

def PublicKeyObj.getType : PublicKeyObj → VRFType
  | .rsa pk => pk.type
  | .ec pk => pk.type

def PublicKeyObj.toBytes (derEncode : RSAPubKey → Bytes) : PublicKeyObj → Bytes
  | .rsa pk => pk.toBytes derEncode
  | .ec pk => pk.toBytes

def PublicKeyObj.verifyVRFProof (hashF : Bytes → Bytes) (pk : PublicKeyObj)
    (input : Bytes) (proof : ProofObj) : Bool × Bytes :=
  match pk with
  | .rsa pk => pk.verifyVRFProof hashF input proof
  | .ec pk => pk.verifyVRFProof hashF input proof

/-- The abstract `SecretKey` capability. -/
inductive SecretKeyObj where
  | rsa : RSASecretKey → SecretKeyObj
  | ec : ECSecretKey → SecretKeyObj
deriving DecidableEq, Repr

/-- `VRF.create` of src/vrf.ts (Node path), with the external key
generators injected: `rsaGen` models `new NodeRSA({b: bits})` and `ecGen`
models `createECDH('prime256v1')` plus `generateKeys`. -/
def VRF.create (hashF : Bytes → Bytes) (rsaGen : Nat → RSAKeyPair) (ecGen : ECDHKey)
    (t : VRFType) : Option SecretKeyObj :=
  if isRSAType t then
    match getRSAVRFParams t with
    | none => some (.rsa ⟨t, none, []⟩)
    | some p => some (.rsa (mkRSASecretKey hashF t (rsaGen p.bits)))
  else if isECType t then
    let key : ECSecretKey := ⟨t, some ecGen, ecGen.privateKey, true⟩
    if key.isInitialized then some (.ec key) else none
  else none

/-- `VRF.proofFromBytes` of src/vrf.ts: pick the family's empty concrete
proof, delegate to its `fromBytes`, and return it only when the import
succeeded and the object reports initialized. -/
def VRF.proofFromBytes (t : VRFType) (data : Bytes) : Option ProofObj :=
  if isECType t then
    let r := ECProof.fromBytes ⟨.UNKNOWN, []⟩ t data
    if r.1 && r.2.isInitialized then some (.ec r.2) else none
  else if isRSAType t then
    let r := RSAProof.fromBytes ⟨.UNKNOWN, []⟩ t data
    if r.1 && r.2.isInitialized then some (.rsa r.2) else none
  else none

/-- `VRF.publicKeyFromBytes` of src/vrf.ts. -/
def VRF.publicKeyFromBytes (hashF : Bytes → Bytes) (derDecode : Bytes → Option RSAPubKey)
    (t : VRFType) (data : Bytes) : Option PublicKeyObj :=
  if isECType t then
    let r := ECPublicKey.fromBytes ⟨.UNKNOWN, [], []⟩ t data
    if r.1 && r.2.isInitialized then some (.ec r.2) else none
  else if isRSAType t then
    let r := RSAPublicKey.fromBytes hashF derDecode ⟨.UNKNOWN, none, []⟩ t data
    if r.1 && r.2.isInitialized then some (.rsa r.2) else none
  else none

/-- The integer that an RSA proof raises to the private exponent: the
full-domain hash for FDH types (`rsaFDHProve`), the PSS-encoded message
for PSS types (`rsaPSSProve`); `mgf1Salt = hash(suiteString)` as set by
the `RSASecretKey` constructor. -/
def rsaEncodedMessage (hashF : Bytes → Bytes) (t : VRFType) (p : RSAVRFParams)
    (input : Bytes) : Nat :=
  if isRSAFDHType t then
    osToNat (hashToFullDomain hashF (hashF p.suiteString) p input)
  else
    osToNat (pssEncode hashF (hashF (p.suiteString ++ input)) p.bits)

/-! ### Supporting lemmas about the numeric and byte-string primitives -/

theorem bytesBE_length (v len : Nat) : (bytesBE v len).length = len := by
  induction len generalizing v with
  | zero => rfl
  | succ n ih => simp [bytesBE, ih]

theorem bytesBE_mem_lt (v len : Nat) : ∀ x ∈ bytesBE v len, x < 256 := by
  induction len generalizing v with
  | zero => simp [bytesBE]
  | succ n ih =>
    intro x hx
    simp only [bytesBE, List.mem_append, List.mem_singleton] at hx
    rcases hx with hx | hx
    · exact ih _ x hx
    · subst hx; exact Nat.mod_lt _ (by omega)

theorem osToNat_append_singleton (l : Bytes) (x : Nat) :
    osToNat (l ++ [x]) = osToNat l * 256 + x := by
  simp [osToNat, List.foldl_append]

theorem osToNat_bytesBE (v len : Nat) (h : v < 256 ^ len) :
    osToNat (bytesBE v len) = v := by
  induction len generalizing v with
  | zero =>
    simp [bytesBE, osToNat]
    omega
  | succ n ih =>
    have hdiv : v / 256 < 256 ^ n := by
      rw [Nat.div_lt_iff_lt_mul (by omega)]
      calc v < 256 ^ (n + 1) := h
        _ = 256 ^ n * 256 := by ring
    rw [bytesBE, osToNat_append_singleton, ih _ hdiv]
    omega

theorem bytesBE_osToNat (b : Bytes) (h : ∀ x ∈ b, x < 256) :
    bytesBE (osToNat b) b.length = b := by
  induction b using List.reverseRecOn with
  | nil => rfl
  | append_singleton l x ih =>
    have hx : x < 256 := h x (by simp)
    have hl : ∀ y ∈ l, y < 256 := fun y hy => h y (by simp [hy])
    have h1 : (l ++ [x]).length = l.length + 1 := by simp
    rw [h1, osToNat_append_singleton, bytesBE]
    have hdiv : (osToNat l * 256 + x) / 256 = osToNat l := by omega
    have hmod : (osToNat l * 256 + x) % 256 = x := by omega
    rw [hdiv, hmod, ih hl]

theorem osToNat_lt (b : Bytes) (h : ∀ x ∈ b, x < 256) :
    osToNat b < 256 ^ b.length := by
  induction b using List.reverseRecOn with
  | nil => simp [osToNat]
  | append_singleton l x ih =>
    have hx : x < 256 := h x (by simp)
    have hl : ∀ y ∈ l, y < 256 := fun y hy => h y (by simp [hy])
    have := ih hl
    rw [osToNat_append_singleton]
    simp only [List.length_append, List.length_singleton, pow_succ]
    omega

theorem modPowGo_eq (m : Nat) (hm : 0 < m) :
    ∀ fuel exp base result, exp ≤ fuel → result < m →
      modPowGo m fuel base exp result = result * base ^ exp % m := by
  intro fuel
  induction fuel with
  | zero =>
    intro exp base result hle hr
    have h0 : exp = 0 := by omega
    subst h0
    simp [modPowGo, Nat.mod_eq_of_lt hr]
  | succ fuel ih =>
    intro exp base result hle hr
    rw [modPowGo]
    split
    · next h =>
      subst h
      simp [Nat.mod_eq_of_lt hr]
    · next h =>
      have hlt : exp / 2 ≤ fuel := by omega
      have hacc : (if exp % 2 = 1 then result * base % m else result) < m := by
        split
        · exact Nat.mod_lt _ hm
        · exact hr
      rw [ih (exp / 2) _ _ hlt hacc]
      have hbb : (base * base % m) ^ (exp / 2) ≡ (base * base) ^ (exp / 2) [MOD m] :=
        (Nat.mod_modEq _ _).pow _
      have hacc2 : (if exp % 2 = 1 then result * base % m else result) ≡
          result * base ^ (exp % 2) [MOD m] := by
        by_cases hodd : exp % 2 = 1
        · rw [if_pos hodd, hodd, pow_one]
          exact Nat.mod_modEq _ _
        · have h0 : exp % 2 = 0 := by omega
          rw [if_neg hodd, h0, pow_zero, mul_one]
      have hmain : (if exp % 2 = 1 then result * base % m else result) *
          (base * base % m) ^ (exp / 2) ≡
          result * base ^ (exp % 2) * (base * base) ^ (exp / 2) [MOD m] :=
        hacc2.mul hbb
      have hexp : exp % 2 + 2 * (exp / 2) = exp := by omega
      have hrhs : result * base ^ (exp % 2) * (base * base) ^ (exp / 2) =
          result * base ^ exp := by
        rw [← pow_two, ← pow_mul, mul_assoc, ← pow_add, Nat.mul_comm 2 (exp / 2),
          Nat.mul_comm (exp / 2) 2, hexp]
      rw [hrhs] at hmain
      exact hmain

theorem modPow_eq (base exp m : Nat) (hm : 2 ≤ m) :
    modPow base exp m = base ^ exp % m := by
  rw [modPow, modPowGo_eq m (by omega) exp exp (base % m) 1 (le_refl exp) (by omega),
    one_mul, ← Nat.pow_mod]

theorem modPow_lt (base exp m : Nat) (hm : 2 ≤ m) : modPow base exp m < m := by
  rw [modPow_eq base exp m hm]
  exact Nat.mod_lt _ (by omega)

theorem mgf1Go_length (hashF : Bytes → Bytes) (s : Bytes) (maskLen : Nat)
    (hne : ∀ x, hashF x ≠ []) :
    ∀ fuel counter acc, acc.length ≤ maskLen → maskLen ≤ acc.length + fuel →
      (mgf1Go hashF s maskLen fuel counter acc).length = maskLen := by
  intro fuel
  induction fuel with
  | zero =>
    intro counter acc h1 h2
    simp only [mgf1Go]
    omega
  | succ n ih =>
    intro counter acc h1 h2
    rw [mgf1Go]
    split
    · next hlt =>
      have hT : 0 < (hashF (s ++ i2osp counter 4)).length :=
        List.length_pos.mpr (hne _)
      have hlen : (acc ++ (hashF (s ++ i2osp counter 4)).take (maskLen - acc.length)).length =
          acc.length + min (hashF (s ++ i2osp counter 4)).length (maskLen - acc.length) := by
        simp [List.length_take, Nat.min_comm]
      exact ih (counter + 1) _ (by rw [hlen]; omega) (by rw [hlen]; omega)
    · next hge => omega

theorem mgf1_length (hashF : Bytes → Bytes) (seed : Bytes) (maskLen : Nat)
    (hne : ∀ x, hashF x ≠ []) : (mgf1 hashF seed maskLen).length = maskLen :=
  mgf1Go_length hashF seed maskLen hne maskLen 0 [] (by simp) (by simp)

theorem mgf1WithSalt_length (hashF : Bytes → Bytes) (salt seed : Bytes) (maskLen : Nat)
    (hne : ∀ x, hashF x ≠ []) : (mgf1WithSalt hashF salt seed maskLen).length = maskLen :=
  mgf1Go_length hashF (seed ++ salt) maskLen hne maskLen 0 [] (by simp) (by simp)

theorem mgf1Go_mem_lt (hashF : Bytes → Bytes) (s : Bytes) (maskLen : Nat)
    (hrange : ∀ x, ∀ b ∈ hashF x, b < 256) :
    ∀ fuel counter acc, (∀ b ∈ acc, b < 256) →
      ∀ b ∈ mgf1Go hashF s maskLen fuel counter acc, b < 256 := by
  intro fuel
  induction fuel with
  | zero =>
    intro counter acc hacc
    simpa [mgf1Go] using hacc
  | succ n ih =>
    intro counter acc hacc
    rw [mgf1Go]
    split
    · refine ih (counter + 1) _ ?_
      intro b hb
      rcases List.mem_append.mp hb with hb | hb
      · exact hacc b hb
      · exact hrange _ b (List.take_subset _ _ hb)
    · exact hacc

theorem mgf1_mem_lt (hashF : Bytes → Bytes) (seed : Bytes) (maskLen : Nat)
    (hrange : ∀ x, ∀ b ∈ hashF x, b < 256) :
    ∀ b ∈ mgf1 hashF seed maskLen, b < 256 :=
  mgf1Go_mem_lt hashF seed maskLen hrange maskLen 0 [] (by simp)

theorem mgf1WithSalt_mem_lt (hashF : Bytes → Bytes) (salt seed : Bytes) (maskLen : Nat)
    (hrange : ∀ x, ∀ b ∈ hashF x, b < 256) :
    ∀ b ∈ mgf1WithSalt hashF salt seed maskLen, b < 256 :=
  mgf1Go_mem_lt hashF (seed ++ salt) maskLen hrange maskLen 0 [] (by simp)

theorem hashToFullDomain_length (hashF : Bytes → Bytes) (salt : Bytes) (p : RSAVRFParams)
    (input : Bytes) (hne : ∀ x, hashF x ≠ []) :
    (hashToFullDomain hashF salt p input).length = p.bits / 8 :=
  mgf1WithSalt_length hashF salt _ _ hne

theorem hashToFullDomain_mem_lt (hashF : Bytes → Bytes) (salt : Bytes) (p : RSAVRFParams)
    (input : Bytes) (hrange : ∀ x, ∀ b ∈ hashF x, b < 256) :
    ∀ b ∈ hashToFullDomain hashF salt p input, b < 256 :=
  mgf1WithSalt_mem_lt hashF salt _ _ hrange

theorem xorBytes_length (a b : Bytes) : (xorBytes a b).length = min a.length b.length := by
  simp [xorBytes]

theorem xorBytes_xorBytes_right (a b : Bytes) (h : a.length = b.length) :
    xorBytes (xorBytes a b) b = a := by
  induction a generalizing b with
  | nil => cases b <;> simp_all [xorBytes]
  | cons x xs ih =>
    cases b with
    | nil => simp at h
    | cons y ys =>
      have h' : xs.length = ys.length := by simpa using h
      show ((x ^^^ y) ^^^ y) :: xorBytes (xorBytes xs ys) ys = x :: xs
      rw [Nat.xor_assoc, Nat.xor_self, Nat.xor_zero, ih ys h']

theorem xorBytes_mem_lt (a b : Bytes) (ha : ∀ x ∈ a, x < 256) (hb : ∀ x ∈ b, x < 256) :
    ∀ x ∈ xorBytes a b, x < 256 := by
  induction a generalizing b with
  | nil => simp [xorBytes]
  | cons x xs ih =>
    cases b with
    | nil => simp [xorBytes]
    | cons y ys =>
      intro z hz
      simp only [xorBytes, List.zipWith, List.mem_cons] at hz
      rcases hz with hz | hz
      · subst hz
        have hx : x < 2 ^ 8 := ha x (by simp)
        have hy : y < 2 ^ 8 := hb y (by simp)
        exact Nat.xor_lt_two_pow hx hy
      · exact ih ys (fun u hu => ha u (by simp [hu])) (fun u hu => hb u (by simp [hu])) z hz

theorem pssCheckDB_iff (l : Bytes) :
    pssCheckDB l = true ↔ l = List.replicate (l.length - 1) 0 ++ [1] := by
  induction l with
  | nil => simp [pssCheckDB]
  | cons b t ih =>
    cases t with
    | nil => simp [pssCheckDB]
    | cons c u =>
      rw [pssCheckDB]
      have hlen : (b :: c :: u).length - 1 = u.length + 1 := rfl
      have hlen2 : (c :: u).length - 1 = u.length := rfl
      rw [hlen, List.replicate_succ]
      simp only [Bool.and_eq_true, beq_iff_eq, List.cons_append, List.cons.injEq]
      rw [ih, hlen2]

theorem pssCheckDB_replicate (n : Nat) :
    pssCheckDB (List.replicate n 0 ++ [1]) = true := by
  rw [pssCheckDB_iff]
  simp

theorem length_flatten_replicate (n : Nat) (T : Bytes) :
    (List.flatten (List.replicate n T)).length = n * T.length := by
  induction n with
  | zero => simp
  | succ k ih => rw [List.replicate_succ, List.flatten_cons]; simp [ih]; ring

theorem ecFillGo_of_le (T : Bytes) (flen fuel : Nat) (acc : Bytes)
    (h : flen ≤ acc.length) : ecFillGo T flen fuel acc = acc := by
  cases fuel with
  | zero => rfl
  | succ n => rw [ecFillGo, if_neg (by omega)]

theorem ecFillGo_join (T : Bytes) (flen : Nat) (hT : T ≠ []) :
    ∀ fuel j, j * T.length < flen → flen ≤ j * T.length + fuel →
      ecFillGo T flen fuel (List.flatten (List.replicate j T)) =
        (List.flatten (List.replicate flen T)).take flen := by
  have hTpos : 0 < T.length := List.length_pos.mpr hT
  intro fuel
  induction fuel with
  | zero => intro j h1 h2; omega
  | succ fuel ih =>
    intro j h1 h2
    have hacc : (List.flatten (List.replicate j T)).length = j * T.length :=
      length_flatten_replicate j T
    have hsucc : (j + 1) * T.length = j * T.length + T.length := by ring
    have hjf : j < flen := by
      calc j ≤ j * T.length := Nat.le_mul_of_pos_right j hTpos
        _ < flen := h1
    rw [ecFillGo, if_pos (by omega)]
    rw [hacc]
    by_cases hcase : T.length ≤ flen - j * T.length
    · have htake : T.take (flen - j * T.length) = T := List.take_of_length_le hcase
      have happ : List.flatten (List.replicate j T) ++ T =
          List.flatten (List.replicate (j + 1) T) := by
        rw [List.replicate_succ', List.flatten_append]
        simp
      rw [htake, happ]
      by_cases hfull : (j + 1) * T.length < flen
      · exact ih (j + 1) hfull (by omega)
      · have heq : (j + 1) * T.length = flen := by omega
        rw [ecFillGo_of_le T flen fuel (List.flatten (List.replicate (j + 1) T))
          (by rw [length_flatten_replicate]; omega)]
        have hsplit : List.flatten (List.replicate flen T) =
            List.flatten (List.replicate (j + 1) T) ++
              List.flatten (List.replicate (flen - (j + 1)) T) := by
          have hflen : (j + 1) + (flen - (j + 1)) = flen := by omega
          rw [← List.flatten_append, ← List.replicate_add, hflen]
        rw [hsplit, List.take_append_eq_append_take, length_flatten_replicate, heq,
          Nat.sub_self, List.take_zero, List.append_nil,
          List.take_of_length_le (le_of_eq (by rw [length_flatten_replicate, heq]))]
    · have hr : flen - j * T.length < T.length := by omega
      have hlen2 : (List.flatten (List.replicate j T) ++
          T.take (flen - j * T.length)).length = flen := by
        simp only [List.length_append, hacc, List.length_take]
        omega
      rw [ecFillGo_of_le T flen fuel
        (List.flatten (List.replicate j T) ++ T.take (flen - j * T.length)) (by omega)]
      have hsplit : List.flatten (List.replicate flen T) =
          List.flatten (List.replicate j T) ++
            List.flatten (List.replicate (flen - j) T) := by
        have hflen : j + (flen - j) = flen := by omega
        rw [← List.flatten_append, ← List.replicate_add, hflen]
      rw [hsplit, List.take_append_eq_append_take, length_flatten_replicate]
      congr 1
      · exact (List.take_of_length_le (by omega)).symm
      · have hfj : flen - j = (flen - j - 1) + 1 := by omega
        rw [hfj, List.replicate_succ, List.flatten_cons, List.take_append_eq_append_take]
        have h0 : flen - j * T.length - T.length = 0 := by omega
        rw [h0]
        simp

theorem ecFill_eq (T : Bytes) (flen : Nat) (hT : T ≠ []) (hpos : 0 < flen) :
    ecFill T flen = (List.flatten (List.replicate flen T)).take flen := by
  have h0 : List.flatten (List.replicate 0 T) = [] := rfl
  rw [ecFill, ← h0]
  exact ecFillGo_join T flen hT flen 0 (by simpa using hpos) (by simp)

theorem ecFill_length (T : Bytes) (flen : Nat) (hT : T ≠ []) :
    (ecFill T flen).length = flen := by
  rcases Nat.eq_zero_or_pos flen with h | h
  · subst h; rfl
  · rw [ecFill_eq T flen hT h, List.length_take, length_flatten_replicate]
    have hTpos : 0 < T.length := List.length_pos.mpr hT
    have : flen ≤ flen * T.length := Nat.le_mul_of_pos_right flen hTpos
    omega

theorem and255_eq (b : Nat) (h : b < 256) : b &&& 255 = b := by
  have h255 : (255 : Nat) = 2 ^ 8 - 1 := by norm_num
  rw [h255]
  exact Nat.and_pow_two_sub_one_of_lt_two_pow (by simpa using h)

/-- Every type with RSA parameters is an RSA type. -/
theorem isRSAType_of_params (t : VRFType) (p : RSAVRFParams)
    (h : getRSAVRFParams t = some p) : isRSAType t = true := by
  cases t <;> first | rfl | exact absurd h (by simp [getRSAVRFParams])

/-- RSA registry bit sizes are multiples of 8 with at least 256 modulus bytes. -/
theorem getRSAVRFParams_bits (t : VRFType) (p : RSAVRFParams)
    (h : getRSAVRFParams t = some p) :
    p.bits % 8 = 0 ∧ 256 ≤ p.bits / 8 := by
  cases t <;> simp [getRSAVRFParams] at h <;> rw [← h] <;> exact ⟨rfl, by norm_num⟩

/-- An RSA type is FDH or PSS, matching the `getVRFProof` dispatch. -/
theorem isRSAFDH_or_PSS (t : VRFType) (h : isRSAType t = true) :
    isRSAFDHType t = true ∨ isRSAPSSType t = true := by
  cases t <;> simp_all [isRSAType, isRSAFDHType, isRSAPSSType]

theorem hashF_ne_nil (hashF : Bytes → Bytes) (L : Nat)
    (hhlen : ∀ x, (hashF x).length = L) (hLpos : 0 < L) : ∀ x, hashF x ≠ [] := by
  intro x hx
  have := hhlen x
  rw [hx] at this
  simp at this
  omega

theorem maskHead255 (l : Bytes) (h : ∀ b ∈ l, b < 256) : maskHead 255 l = l := by
  cases l with
  | nil => rfl
  | cons b t => simp [maskHead, and255_eq b (h b (by simp))]

theorem pssDB_mem_lt (n : Nat) : ∀ b ∈ List.replicate n 0 ++ [1], b < (256 : Nat) := by
  intro b hb
  rcases List.mem_append.mp hb with hb | hb
  · rw [List.eq_of_mem_replicate hb]; omega
  · simp at hb; omega

/-- With a byte-valued digest and byte-aligned `emBits`, the PSS-encoded
message is `maskedDB ∥ H ∥ 0xbc` with no leading-bit clearing. -/
theorem pssEncode_shape (hashF : Bytes → Bytes) (mHash : Bytes) (emBits : Nat)
    (h8 : emBits % 8 = 0)
    (hrange : ∀ x, ∀ b ∈ hashF x, b < 256) :
    pssEncode hashF mHash emBits =
      xorBytes (List.replicate (emBits / 8 - mHash.length - 2) 0 ++ [1])
          (mgf1 hashF (hashF (List.replicate 8 0 ++ mHash))
            (emBits / 8 - mHash.length - 1)) ++
        hashF (List.replicate 8 0 ++ mHash) ++ [188] := by
  have hceil : (emBits + 7) / 8 = emBits / 8 := by omega
  have h8k : 8 * (emBits / 8) = emBits := by omega
  rw [pssEncode]
  simp only [hceil, h8k, Nat.sub_self, Nat.shiftRight_zero, List.append_nil, Nat.sub_zero]
  rw [maskHead255]
  exact xorBytes_mem_lt _ _ (pssDB_mem_lt _) (mgf1_mem_lt hashF _ _ hrange)

theorem pssEncode_length (hashF : Bytes → Bytes) (L : Nat)
    (hhlen : ∀ x, (hashF x).length = L) (hLpos : 0 < L)
    (hrange : ∀ x, ∀ b ∈ hashF x, b < 256)
    (mHash : Bytes) (hmL : mHash.length = L)
    (emBits : Nat) (h8 : emBits % 8 = 0) (hL2 : mHash.length + 2 ≤ emBits / 8) :
    (pssEncode hashF mHash emBits).length = emBits / 8 := by
  have hne := hashF_ne_nil hashF L hhlen hLpos
  rw [pssEncode_shape hashF mHash emBits h8 hrange]
  simp only [List.length_append, xorBytes_length, List.length_replicate,
    mgf1_length hashF _ _ hne, List.length_singleton, hhlen, hmL]
  omega

theorem pssEncode_mem_lt (hashF : Bytes → Bytes) (mHash : Bytes) (emBits : Nat)
    (h8 : emBits % 8 = 0)
    (hrange : ∀ x, ∀ b ∈ hashF x, b < 256) :
    ∀ b ∈ pssEncode hashF mHash emBits, b < 256 := by
  rw [pssEncode_shape hashF mHash emBits h8 hrange]
  intro b hb
  rcases List.mem_append.mp hb with hb | hb
  · rcases List.mem_append.mp hb with hb | hb
    · exact xorBytes_mem_lt _ _ (pssDB_mem_lt _) (mgf1_mem_lt hashF _ _ hrange) b hb
    · exact hrange _ b hb
  · simp at hb; omega

/-- PSS verification accepts its own encoding (byte-aligned `emBits`,
uniform byte-valued digest, `emLen ≥ hLen + 2`). -/
theorem pssVerify_pssEncode (hashF : Bytes → Bytes) (L : Nat)
    (hhlen : ∀ x, (hashF x).length = L) (hLpos : 0 < L)
    (hrange : ∀ x, ∀ b ∈ hashF x, b < 256)
    (mHash : Bytes) (hmL : mHash.length = L)
    (emBits : Nat) (h8 : emBits % 8 = 0) (hL2 : mHash.length + 2 ≤ emBits / 8) :
    pssVerify hashF mHash (pssEncode hashF mHash emBits) emBits = true := by
  have hne := hashF_ne_nil hashF L hhlen hLpos
  have hceil : (emBits + 7) / 8 = emBits / 8 := by omega
  have h8k : 8 * (emBits / 8) = emBits := by omega
  set k := emBits / 8 with hk
  set H := hashF (List.replicate 8 0 ++ mHash) with hH
  have hHlen : H.length = L := hhlen _
  set DB := List.replicate (k - mHash.length - 2) 0 ++ [1] with hDB
  have hDBlen : DB.length = k - mHash.length - 1 := by
    rw [hDB]; simp; omega
  set dbMask := mgf1 hashF H (k - mHash.length - 1) with hdbMask
  have hdbMaskLen : dbMask.length = k - mHash.length - 1 := mgf1_length hashF _ _ hne
  set maskedDB := xorBytes DB dbMask with hmaskedDB
  have hmaskedLen : maskedDB.length = k - mHash.length - 1 := by
    rw [hmaskedDB, xorBytes_length, hDBlen, hdbMaskLen]
    simp
  have hEM : pssEncode hashF mHash emBits = maskedDB ++ H ++ [188] := by
    rw [pssEncode_shape hashF mHash emBits h8 hrange]
  have hmask : pssMask emBits = 255 := by
    rw [pssMask, hceil, h8k, Nat.sub_self, Nat.shiftRight_zero]
  have hmaskedTake : pssVerifyMaskedDB (maskedDB ++ H ++ [188]) k mHash.length =
      maskedDB := by
    rw [pssVerifyMaskedDB, List.append_assoc, ← hmaskedLen, List.take_left]
  have hHTake : pssVerifyH (maskedDB ++ H ++ [188]) k mHash.length = H := by
    rw [pssVerifyH]
    have h1 : (maskedDB ++ H ++ [188]).take (k - 1) = maskedDB ++ H := by
      have hlen : (maskedDB ++ H).length = k - 1 := by
        rw [List.length_append, hmaskedLen, hHlen]
        omega
      rw [← hlen, List.take_left]
    rw [h1, ← hmaskedLen, List.drop_left]
  have hDBrec : pssVerifyDB hashF (maskedDB ++ H ++ [188]) emBits mHash.length = DB := by
    simp only [pssVerifyDB, hceil]
    rw [hmaskedTake, hHTake, ← hdbMask, hmaskedDB,
      xorBytes_xorBytes_right DB dbMask (by rw [hDBlen, hdbMaskLen]), hmask]
    exact maskHead255 DB (pssDB_mem_lt _)
  rw [hEM]
  simp only [pssVerify, hceil]
  rw [if_neg (by omega)]
  have hlast : (maskedDB ++ H ++ [188]).getLast? = some 188 := by
    rw [List.getLast?_concat]
  rw [if_neg (by rw [hlast]; simp)]
  rw [if_neg (by rw [hmask]; simp)]
  rw [if_neg (by
    rw [hDBrec, hDB]
    simp [pssCheckDB_replicate])]
  rw [hHTake]
  simp [hH]

theorem not_FDH_of_PSS (t : VRFType) (h : isRSAPSSType t = true) :
    isRSAFDHType t = false := by
  cases t <;> simp_all [isRSAPSSType, isRSAFDHType]

/-- C1 (amended): for every RSA type and every valid key pair, when the
encoded message integer `m` (full-domain hash for FDH, PSS-encoded `EM`
for PSS) is below the modulus, `verifyVRFProof` of the generated proof
returns `(true, digest(proofBytes))` with a non-empty value, and the proof
bytes are the `bits/8`-byte big-endian encoding of `m ^ d mod n`. -/
theorem rsa_prove_verify_correct_of_msg_lt
    (hashF : Bytes → Bytes) (L : Nat)
    (hhlen : ∀ x, (hashF x).length = L) (hLpos : 0 < L)
    (hrange : ∀ x, ∀ b ∈ hashF x, b < 256)
    (t : VRFType) (p : RSAVRFParams) (hP : getRSAVRFParams t = some p)
    (kp : RSAKeyPair) (hn2 : 2 ≤ kp.n) (hnk : kp.n ≤ 256 ^ (p.bits / 8))
    (hkey : ∀ m, m < kp.n → modPow (modPow m kp.d kp.n) kp.e kp.n = m)
    (hL2 : L + 2 ≤ p.bits / 8)
    (input : Bytes)
    (hm : rsaEncodedMessage hashF t p input < kp.n) :
    ∃ pr : RSAProof,
      (mkRSASecretKey hashF t kp).getVRFProof hashF input = some pr ∧
      pr.proofBytes =
        bytesBE (rsaEncodedMessage hashF t p input ^ kp.d % kp.n) (p.bits / 8) ∧
      (mkRSASecretKey hashF t kp).getPublicKey =
        some ⟨t, some ⟨kp.n, kp.e⟩, hashF p.suiteString⟩ ∧
      RSAPublicKey.verifyVRFProof hashF ⟨t, some ⟨kp.n, kp.e⟩, hashF p.suiteString⟩
        input (.rsa pr) = (true, hashF pr.proofBytes) ∧
      hashF pr.proofBytes ≠ [] := by
  have hrsa := isRSAType_of_params t p hP
  obtain ⟨hbits8, hbits256⟩ := getRSAVRFParams_bits t p hP
  have hne := hashF_ne_nil hashF L hhlen hLpos
  have hsalt : 0 < (hashF p.suiteString).length := by rw [hhlen]; omega
  have hmk : mkRSASecretKey hashF t kp =
      ⟨t, some kp, hashF p.suiteString⟩ := by
    simp [mkRSASecretKey, hP]
  have hinit : RSASecretKey.isInitialized ⟨t, some kp, hashF p.suiteString⟩ = true := by
    simp [RSASecretKey.isInitialized, hrsa, hsalt]
  have hpkinit : RSAPublicKey.isInitialized
      ⟨t, some ⟨kp.n, kp.e⟩, hashF p.suiteString⟩ = true := by
    simp [RSAPublicKey.isInitialized, hrsa, hsalt]
  set m := rsaEncodedMessage hashF t p input with hmdef
  have hmodlt : modPow m kp.d kp.n < kp.n := modPow_lt _ _ _ hn2
  have hsigrt : osToNat (bytesBE (modPow m kp.d kp.n) (p.bits / 8)) =
      modPow m kp.d kp.n :=
    osToNat_bytesBE _ _ (lt_of_lt_of_le hmodlt hnk)
  have hprlen : (bytesBE (modPow m kp.d kp.n) (p.bits / 8)).length = p.bits / 8 :=
    bytesBE_length _ _
  have hprinit : RSAProof.isInitialized ⟨t, bytesBE (modPow m kp.d kp.n) (p.bits / 8)⟩
      = true := by
    simp [RSAProof.isInitialized, hrsa, hprlen]
    omega
  have hvalue : RSAProof.getVRFValue hashF
      ⟨t, bytesBE (modPow m kp.d kp.n) (p.bits / 8)⟩ =
      hashF (bytesBE (modPow m kp.d kp.n) (p.bits / 8)) := by
    rw [RSAProof.getVRFValue, if_neg (by simp [hprinit]), hP]
  rcases isRSAFDH_or_PSS t hrsa with hfdh | hpss
  · -- FDH branch
    have hmsg : m = osToNat (hashToFullDomain hashF (hashF p.suiteString) p input) := by
      rw [hmdef, rsaEncodedMessage, if_pos hfdh]
    refine ⟨⟨t, bytesBE (modPow m kp.d kp.n) (p.bits / 8)⟩, ?_, ?_, ?_, ?_, hne _⟩
    · rw [hmk, RSASecretKey.getVRFProof, if_neg (by simp [hinit]), hP]
      simp only [hfdh, if_true]
      simp only [rsaFDHProve]
      rw [← hmsg]
    · rw [modPow_eq _ _ _ hn2]
    · rw [hmk, RSASecretKey.getPublicKey, if_neg (by simp [hinit])]
    · have hverify : rsaFDHVerify hashF ⟨kp.n, kp.e⟩ (hashF p.suiteString) p input
          (bytesBE (modPow m kp.d kp.n) (p.bits / 8)) = true := by
        rw [rsaFDHVerify]
        simp only [hsigrt]
        rw [hkey m hm]
        have hfdlen : (hashToFullDomain hashF (hashF p.suiteString) p input).length =
            p.bits / 8 := hashToFullDomain_length hashF _ p input hne
        rw [hmsg, ← hfdlen,
          bytesBE_osToNat _ (hashToFullDomain_mem_lt hashF _ p input hrange)]
        simp
      rw [RSAPublicKey.verifyVRFProof]
      rw [if_neg (by simp [hpkinit, ProofObj.isInitialized, hprinit])]
      rw [if_neg (by simp [ProofObj.getType])]
      rw [hP]
      simp only [ProofObj.toBytes, RSAProof.toBytes, if_pos hfdh, hverify,
        if_true, ProofObj.getVRFValue, hvalue]
  · -- PSS branch
    have hfdhF : isRSAFDHType t = false := not_FDH_of_PSS t hpss
    have hmsg : m = osToNat (pssEncode hashF (hashF (p.suiteString ++ input)) p.bits) := by
      rw [hmdef, rsaEncodedMessage, if_neg (by simp [hfdhF])]
    have hemlen : (pssEncode hashF (hashF (p.suiteString ++ input)) p.bits).length =
        p.bits / 8 :=
      pssEncode_length hashF L hhlen hLpos hrange _ (hhlen _) p.bits hbits8
        (by rw [hhlen]; omega)
    refine ⟨⟨t, bytesBE (modPow m kp.d kp.n) (p.bits / 8)⟩, ?_, ?_, ?_, ?_, hne _⟩
    · rw [hmk, RSASecretKey.getVRFProof, if_neg (by simp [hinit]), hP]
      simp only [hfdhF, Bool.false_eq_true, if_false, hpss, if_true]
      simp only [rsaPSSProve]
      rw [← hmsg]
    · rw [modPow_eq _ _ _ hn2]
    · rw [hmk, RSASecretKey.getPublicKey, if_neg (by simp [hinit])]
    · have hverify : rsaPSSVerify hashF ⟨kp.n, kp.e⟩ p input
          (bytesBE (modPow m kp.d kp.n) (p.bits / 8)) = true := by
        rw [rsaPSSVerify]
        simp only [hsigrt]
        rw [hkey m hm, hmsg, ← hemlen,
          bytesBE_osToNat _ (pssEncode_mem_lt hashF _ p.bits hbits8 hrange)]
        exact pssVerify_pssEncode hashF L hhlen hLpos hrange _ (hhlen _) p.bits hbits8
          (by rw [hhlen]; omega)
      rw [RSAPublicKey.verifyVRFProof]
      rw [if_neg (by simp [hpkinit, ProofObj.isInitialized, hprinit])]
      rw [if_neg (by simp [ProofObj.getType])]
      rw [hP]
      simp only [ProofObj.toBytes, RSAProof.toBytes, hfdhF, Bool.false_eq_true,
        if_false, if_pos hpss, hverify, if_true, ProofObj.getVRFValue, hvalue]

set_option maxRecDepth 40000 in
/-- C1 counterexample: a valid toy RSA key pair (n = 15, e = d = 3 on the
2048-bit FDH type) and a constant 32-byte digest for which the full-domain
hash, read big-endian, is at least the modulus: verifying the freshly
generated proof then returns `(false, [])`, not `(true, v)`. -/
theorem rsa_verify_rejects_own_proof :
    ((List.range 15).all fun m => modPow (modPow m 3 15) 3 15 == m) = true ∧
    Option.bind
        ((mkRSASecretKey (fun _ => List.replicate 32 7) .RSA_FDH_VRF_RSA2048_SHA256
          ⟨15, 3, 3⟩).getVRFProof (fun _ => List.replicate 32 7) [])
        (fun pr =>
          Option.map
            (fun pk => RSAPublicKey.verifyVRFProof (fun _ => List.replicate 32 7)
              pk [] (.rsa pr))
            (mkRSASecretKey (fun _ => List.replicate 32 7) .RSA_FDH_VRF_RSA2048_SHA256
              ⟨15, 3, 3⟩).getPublicKey) = some (false, []) := by
  constructor
  · decide
  · decide

set_option maxRecDepth 40000 in
theorem rsa_prove_verify_witness :
    ∃ pr : RSAProof,
      (mkRSASecretKey (fun _ => List.replicate 32 0) .RSA_FDH_VRF_RSA2048_SHA256
        ⟨15, 3, 3⟩).getVRFProof (fun _ => List.replicate 32 0) [] = some pr ∧
      RSAPublicKey.verifyVRFProof (fun _ => List.replicate 32 0)
        ⟨.RSA_FDH_VRF_RSA2048_SHA256, some ⟨15, 3⟩, List.replicate 32 0⟩ []
        (.rsa pr) = (true, List.replicate 32 0) := by
  obtain ⟨pr, h1, h2, h3, h4, h5⟩ :=
    rsa_prove_verify_correct_of_msg_lt (fun _ => List.replicate 32 0) 32
      (fun x => by simp) (by norm_num)
      (fun x b hb => by rw [List.eq_of_mem_replicate hb]; norm_num)
      .RSA_FDH_VRF_RSA2048_SHA256 _ rfl ⟨15, 3, 3⟩ (by norm_num) (by decide)
      (by decide) (by decide) [] (by decide)
  exact ⟨pr, h1, h4⟩

theorem ecProof_fromBytes_cases (p : ECProof) (t : VRFType) (data : Bytes) :
    ECProof.fromBytes p t data = (false, p) ∨
      (ECProof.fromBytes p t data = (true, ⟨t, data⟩) ∧ data ≠ [] ∧
        isECType t = true) := by
  rw [ECProof.fromBytes]
  split
  · exact Or.inl rfl
  · next hec =>
    split
    · exact Or.inl rfl
    · split
      · exact Or.inl rfl
      · next hlen =>
        exact Or.inr ⟨rfl, by simpa using hlen, by simpa using hec⟩

theorem rsaProof_fromBytes_cases (p : RSAProof) (t : VRFType) (data : Bytes) :
    RSAProof.fromBytes p t data = (false, p) ∨
      (RSAProof.fromBytes p t data = (true, ⟨t, data⟩) ∧ data ≠ [] ∧
        isRSAType t = true) := by
  rw [RSAProof.fromBytes]
  split
  · exact Or.inl rfl
  · next hrsa =>
    split
    · exact Or.inl rfl
    · split
      · exact Or.inl rfl
      · next hlen =>
        exact Or.inr ⟨rfl, by simpa using hlen, by simpa using hrsa⟩

theorem ecPublicKey_fromBytes_cases (pk : ECPublicKey) (t : VRFType) (data : Bytes) :
    ECPublicKey.fromBytes pk t data = (false, pk) ∨
      (ECPublicKey.fromBytes pk t data = (true, ⟨t, data, pk.privateKeyBytes⟩) ∧
        data.length = 33 ∧ (data.headD 0 = 2 ∨ data.headD 0 = 3) ∧
        isECType t = true) := by
  rw [ECPublicKey.fromBytes]
  split
  · exact Or.inl rfl
  · next hec =>
    split
    · exact Or.inl rfl
    · split
      · exact Or.inl rfl
      · split
        · next hshape =>
          simp only [Bool.and_eq_true, Bool.or_eq_true, beq_iff_eq,
            decide_eq_true_eq] at hshape
          exact Or.inr ⟨rfl, hshape.1, hshape.2, by simpa using hec⟩
        · exact Or.inl rfl

theorem rsaPublicKey_fromBytes_cases (hashF : Bytes → Bytes)
    (derDecode : Bytes → Option RSAPubKey) (pk : RSAPublicKey) (t : VRFType)
    (data : Bytes) :
    RSAPublicKey.fromBytes hashF derDecode pk t data = (false, pk) ∨
      (∃ key pp, getRSAVRFParams t = some pp ∧ derDecode data = some key ∧
        RSAPublicKey.fromBytes hashF derDecode pk t data =
          (true, ⟨t, some key, hashF pp.suiteString⟩) ∧ data ≠ [] ∧
        isRSAType t = true) := by
  rw [RSAPublicKey.fromBytes]
  split
  · exact Or.inl rfl
  · next hrsa =>
    split
    · exact Or.inl rfl
    · next pp hpp =>
      split
      · exact Or.inl rfl
      · next hlen =>
        split
        · exact Or.inl rfl
        · next key hkey =>
          exact Or.inr ⟨key, pp, hpp, hkey, rfl, by simpa using hlen,
            by simpa using hrsa⟩

theorem rsaVerify_guards (hashF : Bytes → Bytes) (pk : RSAPublicKey)
    (input : Bytes) (pr : ProofObj)
    (h : pk.isInitialized = false ∨ pr.isInitialized = false ∨ pr.getType ≠ pk.type) :
    RSAPublicKey.verifyVRFProof hashF pk input pr = (false, []) := by
  rcases h with h | h | h <;> simp [RSAPublicKey.verifyVRFProof, h]

theorem rsaVerify_shape (hashF : Bytes → Bytes) (pk : RSAPublicKey)
    (input : Bytes) (pr : ProofObj) :
    RSAPublicKey.verifyVRFProof hashF pk input pr = (false, []) ∨
      ∃ v, RSAPublicKey.verifyVRFProof hashF pk input pr = (true, v) := by
  simp only [RSAPublicKey.verifyVRFProof]
  repeat' split
  all_goals first | exact Or.inl rfl | exact Or.inr ⟨_, rfl⟩

theorem rsaVerify_snd_empty (hashF : Bytes → Bytes) (pk : RSAPublicKey)
    (input : Bytes) (pr : ProofObj)
    (h : (RSAPublicKey.verifyVRFProof hashF pk input pr).1 = false) :
    RSAPublicKey.verifyVRFProof hashF pk input pr = (false, []) := by
  rcases rsaVerify_shape hashF pk input pr with hs | ⟨v, hs⟩
  · exact hs
  · rw [hs] at h
    simp at h

theorem ecVerify_guards (hashF : Bytes → Bytes) (pk : ECPublicKey)
    (input : Bytes) (pr : ProofObj)
    (h : pk.isInitialized = false ∨ pr.isInitialized = false ∨ pr.getType ≠ pk.type) :
    ECPublicKey.verifyVRFProof hashF pk input pr = (false, []) := by
  rcases h with h | h | h <;> simp [ECPublicKey.verifyVRFProof, h]

theorem ecVerify_shape (hashF : Bytes → Bytes) (pk : ECPublicKey)
    (input : Bytes) (pr : ProofObj) :
    ECPublicKey.verifyVRFProof hashF pk input pr = (false, []) ∨
      ∃ v, ECPublicKey.verifyVRFProof hashF pk input pr = (true, v) := by
  simp only [ECPublicKey.verifyVRFProof]
  repeat' split
  all_goals first | exact Or.inl rfl | exact Or.inr ⟨_, rfl⟩

theorem ecVerify_snd_empty (hashF : Bytes → Bytes) (pk : ECPublicKey)
    (input : Bytes) (pr : ProofObj)
    (h : (ECPublicKey.verifyVRFProof hashF pk input pr).1 = false) :
    ECPublicKey.verifyVRFProof hashF pk input pr = (false, []) := by
  rcases ecVerify_shape hashF pk input pr with hs | ⟨v, hs⟩
  · exact hs
  · rw [hs] at h
    simp at h

/-- C4: `verifyVRFProof` is a total function (the source catches every
exception) and returns `(false, empty)` whenever the public key or the
proof is uninitialized or their types differ — the guards sit before any
cryptographic computation in both engines — and whenever the result flag
is false for any other reason (failed cryptographic check), the value is
empty as well. -/
theorem verifyVRFProof_total_rejects (hashF : Bytes → Bytes) (pk : PublicKeyObj)
    (input : Bytes) (pr : ProofObj) :
    (pk.isInitialized = false ∨ pr.isInitialized = false ∨ pr.getType ≠ pk.getType →
      pk.verifyVRFProof hashF input pr = (false, [])) ∧
    ((pk.verifyVRFProof hashF input pr).1 = false →
      pk.verifyVRFProof hashF input pr = (false, [])) := by
  cases pk with
  | rsa pk =>
    exact ⟨fun h => rsaVerify_guards hashF pk input pr h,
      fun h => rsaVerify_snd_empty hashF pk input pr h⟩
  | ec pk =>
    exact ⟨fun h => ecVerify_guards hashF pk input pr h,
      fun h => ecVerify_snd_empty hashF pk input pr h⟩

theorem verifyVRFProof_total_rejects_witness :
    PublicKeyObj.verifyVRFProof (fun _ => List.replicate 32 0)
      (.rsa ⟨.UNKNOWN, none, []⟩) [] (.ec ⟨.EC_VRF_P256_SHA256_TAI, [1]⟩) =
      (false, []) :=
  (verifyVRFProof_total_rejects (fun _ => List.replicate 32 0)
    (.rsa ⟨.UNKNOWN, none, []⟩) [] (.ec ⟨.EC_VRF_P256_SHA256_TAI, [1]⟩)).1
    (Or.inl rfl)

theorem proofFromBytes_props (t : VRFType) (data : Bytes) :
    ∀ pr, VRF.proofFromBytes t data = some pr →
      pr.isInitialized = true ∧ pr.getType = t := by
  intro pr h
  simp only [VRF.proofFromBytes] at h
  split at h
  · rcases ecProof_fromBytes_cases ⟨.UNKNOWN, []⟩ t data with hc | ⟨hc, _, _⟩
    · rw [hc] at h; simp at h
    · rw [hc] at h
      simp only [Bool.true_and] at h
      split at h
      · next hinit =>
        cases h
        exact ⟨by simpa using hinit, rfl⟩
      · exact absurd h (by simp)
  · split at h
    · rcases rsaProof_fromBytes_cases ⟨.UNKNOWN, []⟩ t data with hc | ⟨hc, _, _⟩
      · rw [hc] at h; simp at h
      · rw [hc] at h
        simp only [Bool.true_and] at h
        split at h
        · next hinit =>
          cases h
          exact ⟨by simpa using hinit, rfl⟩
        · exact absurd h (by simp)
    · exact absurd h (by simp)

theorem publicKeyFromBytes_props (hashF : Bytes → Bytes)
    (derDecode : Bytes → Option RSAPubKey) (t : VRFType) (data : Bytes) :
    ∀ pk, VRF.publicKeyFromBytes hashF derDecode t data = some pk →
      pk.isInitialized = true ∧ pk.getType = t := by
  intro pk h
  simp only [VRF.publicKeyFromBytes] at h
  split at h
  · rcases ecPublicKey_fromBytes_cases ⟨.UNKNOWN, [], []⟩ t data with hc | ⟨hc, _, _, _⟩
    · rw [hc] at h; simp at h
    · rw [hc] at h
      simp only [Bool.true_and] at h
      split at h
      · next hinit =>
        cases h
        exact ⟨by simpa using hinit, rfl⟩
      · exact absurd h (by simp)
  · split at h
    · rcases rsaPublicKey_fromBytes_cases hashF derDecode ⟨.UNKNOWN, none, []⟩ t data
        with hc | ⟨key, pp, _, _, hc, _, _⟩
      · rw [hc] at h; simp at h
      · rw [hc] at h
        simp only [Bool.true_and] at h
        split at h
        · next hinit =>
          cases h
          exact ⟨by simpa using hinit, rfl⟩
        · exact absurd h (by simp)
    · exact absurd h (by simp)

/-- C5: the dispatcher returns absent for `UNKNOWN` (any data, including
bytes valid for another type) and for zero-length data (any supported
type); any non-absent result reports `isInitialized() = true` and carries
the requested type; and `VRF.create(UNKNOWN)` is absent. -/
theorem dispatcher_absent_and_initialized
    (hashF : Bytes → Bytes) (derDecode : Bytes → Option RSAPubKey)
    (rsaGen : Nat → RSAKeyPair) (ecGen : ECDHKey) (t : VRFType) (data : Bytes) :
    VRF.proofFromBytes .UNKNOWN data = none ∧
    VRF.publicKeyFromBytes hashF derDecode .UNKNOWN data = none ∧
    (t ≠ .UNKNOWN → VRF.proofFromBytes t [] = none ∧
      VRF.publicKeyFromBytes hashF derDecode t [] = none) ∧
    (∀ pr, VRF.proofFromBytes t data = some pr →
      pr.isInitialized = true ∧ pr.getType = t) ∧
    (∀ pk, VRF.publicKeyFromBytes hashF derDecode t data = some pk →
      pk.isInitialized = true ∧ pk.getType = t) ∧
    VRF.create hashF rsaGen ecGen .UNKNOWN = none := by
  refine ⟨rfl, rfl, ?_, proofFromBytes_props t data,
    publicKeyFromBytes_props hashF derDecode t data, rfl⟩
  intro h
  cases t <;> first | exact absurd rfl h | exact ⟨rfl, rfl⟩

theorem dispatcher_witness :
    VRF.proofFromBytes .UNKNOWN [1, 2] = none ∧
    VRF.proofFromBytes .EC_VRF_P256_SHA256_TAI [] = none ∧
    ProofObj.isInitialized (.ec ⟨.EC_VRF_P256_SHA256_TAI, [1, 2]⟩) = true ∧
    ProofObj.getType (.ec ⟨.EC_VRF_P256_SHA256_TAI, [1, 2]⟩) =
      .EC_VRF_P256_SHA256_TAI := by
  obtain ⟨h1, h2, h3, h4, h5, h6⟩ :=
    dispatcher_absent_and_initialized (fun _ => []) (fun _ => none)
      (fun _ => ⟨1, 1, 1⟩) ⟨[1], [2]⟩ .EC_VRF_P256_SHA256_TAI [1, 2]
  refine ⟨h1, (h3 (by decide)).1, ?_, ?_⟩
  · exact (h4 (.ec ⟨.EC_VRF_P256_SHA256_TAI, [1, 2]⟩) (by decide)).1
  · exact (h4 (.ec ⟨.EC_VRF_P256_SHA256_TAI, [1, 2]⟩) (by decide)).2

/-- C9 (amended): a failed `fromBytes` returns the receiver exactly as it
was — every failure path of all four implementations returns before any
field assignment — so a fresh receiver stays uninitialized, but an
already-initialized receiver keeps its old state. -/
theorem fromBytes_failure_unchanged
    (hashF : Bytes → Bytes) (derDecode : Bytes → Option RSAPubKey)
    (t : VRFType) (data : Bytes) :
    (∀ p : ECProof, (ECProof.fromBytes p t data).1 = false →
      (ECProof.fromBytes p t data).2 = p) ∧
    (∀ p : RSAProof, (RSAProof.fromBytes p t data).1 = false →
      (RSAProof.fromBytes p t data).2 = p) ∧
    (∀ pk : ECPublicKey, (ECPublicKey.fromBytes pk t data).1 = false →
      (ECPublicKey.fromBytes pk t data).2 = pk) ∧
    (∀ pk : RSAPublicKey,
      (RSAPublicKey.fromBytes hashF derDecode pk t data).1 = false →
      (RSAPublicKey.fromBytes hashF derDecode pk t data).2 = pk) := by
  refine ⟨fun p h => ?_, fun p h => ?_, fun pk h => ?_, fun pk h => ?_⟩
  · rcases ecProof_fromBytes_cases p t data with hc | ⟨hc, _, _⟩
    · rw [hc]
    · rw [hc] at h; simp at h
  · rcases rsaProof_fromBytes_cases p t data with hc | ⟨hc, _, _⟩
    · rw [hc]
    · rw [hc] at h; simp at h
  · rcases ecPublicKey_fromBytes_cases pk t data with hc | ⟨hc, _, _, _⟩
    · rw [hc]
    · rw [hc] at h; simp at h
  · rcases rsaPublicKey_fromBytes_cases hashF derDecode pk t data
      with hc | ⟨key, pp, _, _, hc, _, _⟩
    · rw [hc]
    · rw [hc] at h; simp at h

/-- C9 counterexample: an already-initialized EC proof on which `fromBytes`
fails (wrong type tag) still reports `isInitialized() = true` afterwards —
the failed import does not leave the receiver uninitialized. -/
theorem fromBytes_failure_keeps_initialized :
    (ECProof.fromBytes ⟨.EC_VRF_P256_SHA256_TAI, [1]⟩ .UNKNOWN [2]).1 = false ∧
    ECProof.isInitialized
      (ECProof.fromBytes ⟨.EC_VRF_P256_SHA256_TAI, [1]⟩ .UNKNOWN [2]).2 = true := by
  constructor
  · decide
  · decide

theorem fromBytes_failure_unchanged_witness :
    (ECProof.fromBytes ⟨.EC_VRF_P256_SHA256_TAI, [1]⟩ .UNKNOWN [2]).2 =
      ⟨.EC_VRF_P256_SHA256_TAI, [1]⟩ :=
  (fromBytes_failure_unchanged (fun _ => []) (fun _ => none) .UNKNOWN [2]).1
    ⟨.EC_VRF_P256_SHA256_TAI, [1]⟩ (by decide)

theorem isECType_eq (t : VRFType) :
    isECType t = true ↔ t = .EC_VRF_P256_SHA256_TAI := by
  cases t <;> simp [isECType]

theorem isECType_false_of_RSA (t : VRFType) (h : isRSAType t = true) :
    isECType t = false := by
  cases t <;> simp_all [isRSAType, isECType]

theorem getRSAVRFParams_exists (t : VRFType) (h : isRSAType t = true) :
    ∃ pp, getRSAVRFParams t = some pp := by
  cases t <;> first | exact ⟨_, rfl⟩ | simp_all [isRSAType]

theorem ecProof_fromBytes_success (p : ECProof) (data : Bytes) (hd : data ≠ []) :
    ECProof.fromBytes p .EC_VRF_P256_SHA256_TAI data =
      (true, ⟨.EC_VRF_P256_SHA256_TAI, data⟩) := by
  rw [ECProof.fromBytes, if_neg (by simp [isECType])]
  rw [show getECVRFParams .EC_VRF_P256_SHA256_TAI =
    some ⟨"ECVRF-P256-SHA256-TAI", "P-256", 1, "sha256", [1], 32, 33, 16, 80, 32⟩
    from rfl]
  rw [if_neg (by simpa [List.length_eq_zero] using hd)]

theorem rsaProof_fromBytes_success (p : RSAProof) (t : VRFType) (data : Bytes)
    (ht : isRSAType t = true) (hd : data ≠ []) :
    RSAProof.fromBytes p t data = (true, ⟨t, data⟩) := by
  obtain ⟨pp, hpp⟩ := getRSAVRFParams_exists t ht
  rw [RSAProof.fromBytes, if_neg (by simp [ht]), hpp,
    if_neg (by simpa [List.length_eq_zero] using hd)]

/-- C8 (amended): `proofFromBytes` applies no length check beyond
non-emptiness — for a supported type it is absent exactly on empty data,
and any accepted proof carries a byte-for-byte copy of the input data of
whatever nonzero length it had. -/
theorem proofFromBytes_no_length_check (t : VRFType) (data : Bytes)
    (hsup : isRSAType t = true ∨ isECType t = true) :
    (VRF.proofFromBytes t data = none ↔ data = []) ∧
    (∀ pr, VRF.proofFromBytes t data = some pr → pr.toBytes = data) := by
  rcases hsup with hrsa | hec
  · have hecF : isECType t = false := isECType_false_of_RSA t hrsa
    by_cases hd : data = []
    · subst hd
      constructor
      · refine ⟨fun _ => rfl, fun _ => ?_⟩
        rcases rsaProof_fromBytes_cases ⟨.UNKNOWN, []⟩ t [] with hc | ⟨_, hd2, _⟩
        · simp [VRF.proofFromBytes, hecF, hrsa, hc]
        · exact absurd rfl hd2
      · intro pr h
        rcases rsaProof_fromBytes_cases ⟨.UNKNOWN, []⟩ t [] with hc | ⟨_, hd2, _⟩
        · simp [VRF.proofFromBytes, hecF, hrsa, hc] at h
        · exact absurd rfl hd2
    · have hsucc := rsaProof_fromBytes_success ⟨.UNKNOWN, []⟩ t data hrsa hd
      have hinit : RSAProof.isInitialized ⟨t, data⟩ = true := by
        simp [RSAProof.isInitialized, hrsa, List.length_pos.mpr hd]
      constructor
      · constructor
        · intro h
          simp [VRF.proofFromBytes, hecF, hrsa, hsucc, hinit] at h
        · intro h; exact absurd h hd
      · intro pr h
        simp only [VRF.proofFromBytes, hecF, Bool.false_eq_true, if_false, hrsa,
          if_true, hsucc, hinit, Bool.and_self] at h
        cases h
        rfl
  · rw [isECType_eq] at hec
    subst hec
    by_cases hd : data = []
    · subst hd
      refine ⟨⟨fun _ => rfl, fun _ => by decide⟩, fun pr h => ?_⟩
      rw [show VRF.proofFromBytes .EC_VRF_P256_SHA256_TAI [] = none from rfl] at h
      exact Option.noConfusion h
    · have hsucc := ecProof_fromBytes_success ⟨.UNKNOWN, []⟩ data hd
      have hinit : ECProof.isInitialized ⟨.EC_VRF_P256_SHA256_TAI, data⟩ = true := by
        simp [ECProof.isInitialized, isECType, List.length_pos.mpr hd]
      constructor
      · constructor
        · intro h
          simp [VRF.proofFromBytes, isECType, hsucc, hinit] at h
        · intro h; exact absurd h hd
      · intro pr h
        simp only [VRF.proofFromBytes, isECType, hsucc, hinit] at h
        simp at h
        rw [← h]
        rfl

/-- C8 counterexample: a 1-byte buffer is accepted by `proofFromBytes` for
the 2048-bit RSA-FDH type, whose fixed proof length is 256 bytes — there is
no wrong-length rejection. -/
theorem proofFromBytes_accepts_wrong_length :
    VRF.proofFromBytes .RSA_FDH_VRF_RSA2048_SHA256 [1] =
      some (.rsa ⟨.RSA_FDH_VRF_RSA2048_SHA256, [1]⟩) ∧
    (ProofObj.toBytes (.rsa ⟨.RSA_FDH_VRF_RSA2048_SHA256, [1]⟩)).length = 1 ∧
    Option.map (fun p => p.bits / 8) (getRSAVRFParams .RSA_FDH_VRF_RSA2048_SHA256) =
      some 256 := by
  refine ⟨by decide, by decide, ?_⟩
  rfl

theorem proofFromBytes_no_length_check_witness :
    VRF.proofFromBytes .RSA_FDH_VRF_RSA2048_SHA256 [] = none ∧
    ProofObj.toBytes (.rsa ⟨.RSA_FDH_VRF_RSA2048_SHA256, [1]⟩) = [1] := by
  refine ⟨(proofFromBytes_no_length_check .RSA_FDH_VRF_RSA2048_SHA256 []
    (Or.inl rfl)).1.mpr rfl, ?_⟩
  exact (proofFromBytes_no_length_check .RSA_FDH_VRF_RSA2048_SHA256 [1]
    (Or.inl rfl)).2 _ (by decide)

/-- C3 (amended): round trips hold for every initialized proof of a
supported type, for every RSA public key whose external DER codec
round-trips, and for every EC public key whose buffer is a 33-byte
compressed point with a `0x02`/`0x03` prefix (the shape produced by
`getPublicKey` and accepted by `fromBytes`) — but not for arbitrary
initialized EC public keys, whose buffers `fromBytes` may reject. -/
theorem toBytes_fromBytes_roundtrip (hashF : Bytes → Bytes)
    (derEncode : RSAPubKey → Bytes) (derDecode : Bytes → Option RSAPubKey) :
    (∀ pobj : ProofObj, pobj.isInitialized = true →
      VRF.proofFromBytes pobj.getType pobj.toBytes = some pobj) ∧
    (∀ (pk : RSAPublicKey) (key : RSAPubKey), pk.rsaKey = some key →
      isRSAType pk.type = true →
      derDecode (derEncode key) = some key → derEncode key ≠ [] →
      (∀ x, hashF x ≠ []) →
      ∃ pk2 : PublicKeyObj,
        VRF.publicKeyFromBytes hashF derDecode pk.type (pk.toBytes derEncode) =
          some pk2 ∧
        pk2.toBytes derEncode = pk.toBytes derEncode) ∧
    (∀ pk : ECPublicKey, pk.publicKeyBytes.length = 33 →
      (pk.publicKeyBytes.headD 0 = 2 ∨ pk.publicKeyBytes.headD 0 = 3) →
      isECType pk.type = true →
      VRF.publicKeyFromBytes hashF derDecode pk.type pk.toBytes =
        some (.ec ⟨pk.type, pk.publicKeyBytes, []⟩) ∧
      PublicKeyObj.toBytes derEncode (.ec ⟨pk.type, pk.publicKeyBytes, []⟩) =
        pk.toBytes) := by
  refine ⟨fun pobj hinit => ?_, fun pk key hkey hrsa hrt hne hashne => ?_,
    fun pk hlen hhead hec => ?_⟩
  · cases pobj with
    | rsa p =>
      have h1 : isRSAType p.type = true := by
        simp [ProofObj.isInitialized, RSAProof.isInitialized] at hinit
        exact hinit.2
      have h2 : p.proofBytes ≠ [] := by
        simp [ProofObj.isInitialized, RSAProof.isInitialized] at hinit
        exact List.ne_nil_of_length_pos hinit.1
      have hecF : isECType p.type = false := isECType_false_of_RSA _ h1
      have hsucc := rsaProof_fromBytes_success ⟨.UNKNOWN, []⟩ p.type p.proofBytes h1 h2
      simp only [ProofObj.getType, ProofObj.toBytes, RSAProof.toBytes,
        VRF.proofFromBytes, hecF, Bool.false_eq_true, if_false, h1, if_true, hsucc]
      have hinit2 : RSAProof.isInitialized ⟨p.type, p.proofBytes⟩ = true := by
        simpa [ProofObj.isInitialized] using hinit
      simp [hinit2]
    | ec p =>
      have h1 : isECType p.type = true := by
        simp [ProofObj.isInitialized, ECProof.isInitialized] at hinit
        exact hinit.2
      have h2 : p.proofBytes ≠ [] := by
        simp [ProofObj.isInitialized, ECProof.isInitialized] at hinit
        exact List.ne_nil_of_length_pos hinit.1
      have ht : p.type = .EC_VRF_P256_SHA256_TAI := (isECType_eq _).mp h1
      have hsucc := ecProof_fromBytes_success ⟨.UNKNOWN, []⟩ p.proofBytes h2
      simp only [ProofObj.getType, ProofObj.toBytes, ECProof.toBytes,
        VRF.proofFromBytes, ht, isECType, if_true]
      rw [show (VRFType.EC_VRF_P256_SHA256_TAI == VRFType.EC_VRF_P256_SHA256_TAI) =
        true from rfl]
      simp only [if_true, hsucc]
      have hinit2 : ECProof.isInitialized ⟨.EC_VRF_P256_SHA256_TAI, p.proofBytes⟩ =
          true := by
        rw [← ht]
        simpa [ProofObj.isInitialized] using hinit
      have heta : (⟨.EC_VRF_P256_SHA256_TAI, p.proofBytes⟩ : ECProof) = p := by
        rw [← ht]
      simp [hinit2, heta]
      simpa [ProofObj.isInitialized] using hinit
  · obtain ⟨pp, hpp⟩ := getRSAVRFParams_exists pk.type hrsa
    have hecF : isECType pk.type = false := isECType_false_of_RSA _ hrsa
    have htb : pk.toBytes derEncode = derEncode key := by
      rw [RSAPublicKey.toBytes, hkey]
    have hfb : RSAPublicKey.fromBytes hashF derDecode ⟨.UNKNOWN, none, []⟩ pk.type
        (derEncode key) = (true, ⟨pk.type, some key, hashF pp.suiteString⟩) := by
      simp only [RSAPublicKey.fromBytes, hpp, hrt]
      rw [if_neg (by simp [hrsa]), if_neg (by simpa [List.length_eq_zero] using hne)]
    have hinit2 : RSAPublicKey.isInitialized
        ⟨pk.type, some key, hashF pp.suiteString⟩ = true := by
      simp [RSAPublicKey.isInitialized, hrsa,
        List.length_pos.mpr (hashne pp.suiteString)]
    refine ⟨.rsa ⟨pk.type, some key, hashF pp.suiteString⟩, ?_, ?_⟩
    · simp only [VRF.publicKeyFromBytes, hecF, Bool.false_eq_true, if_false,
        hrsa, if_true, htb, hfb, hinit2, Bool.and_self]
    · rw [htb]
      rfl
  · have ht : pk.type = .EC_VRF_P256_SHA256_TAI := (isECType_eq _).mp hec
    have hd : pk.publicKeyBytes ≠ [] := by
      intro h
      rw [h] at hlen
      simp at hlen
    have hfb : ECPublicKey.fromBytes ⟨.UNKNOWN, [], []⟩ pk.type pk.publicKeyBytes =
        (true, ⟨pk.type, pk.publicKeyBytes, []⟩) := by
      rw [ECPublicKey.fromBytes, if_neg (by simp [hec]), ht]
      rw [show getECVRFParams .EC_VRF_P256_SHA256_TAI =
        some ⟨"ECVRF-P256-SHA256-TAI", "P-256", 1, "sha256", [1], 32, 33, 16, 80, 32⟩
        from rfl]
      rw [if_neg (by simpa [List.length_eq_zero] using hd),
        if_pos (by
          rw [hlen]
          rcases hhead with h | h <;> rw [List.headD_eq_head?_getD] at h <;> simp [h])]
    have hinit2 : ECPublicKey.isInitialized ⟨pk.type, pk.publicKeyBytes, []⟩ =
        true := by
      simp [ECPublicKey.isInitialized, hec, List.length_pos.mpr hd]
    constructor
    · simp only [VRF.publicKeyFromBytes, ECPublicKey.toBytes, ht, isECType]
      rw [show (VRFType.EC_VRF_P256_SHA256_TAI == VRFType.EC_VRF_P256_SHA256_TAI) =
        true from rfl]
      rw [← ht]
      simp only [if_true, hfb, hinit2, Bool.and_self]
    · rfl

/-- C3 counterexample: an initialized EC public key whose byte buffer is a
single byte `[5]` (constructible, since `isInitialized` only demands a
non-empty buffer) does not round-trip: `publicKeyFromBytes` rejects it. -/
theorem ecPublicKey_roundtrip_fails :
    ECPublicKey.isInitialized ⟨.EC_VRF_P256_SHA256_TAI, [5], []⟩ = true ∧
    VRF.publicKeyFromBytes (fun _ => List.replicate 32 0) (fun _ => none)
      .EC_VRF_P256_SHA256_TAI
      (ECPublicKey.toBytes ⟨.EC_VRF_P256_SHA256_TAI, [5], []⟩) = none := by
  constructor
  · decide
  · decide

theorem toBytes_fromBytes_roundtrip_witness :
    VRF.proofFromBytes .EC_VRF_P256_SHA256_TAI [9] =
      some (.ec ⟨.EC_VRF_P256_SHA256_TAI, [9]⟩) :=
  (toBytes_fromBytes_roundtrip (fun _ => List.replicate 32 0)
    (fun _ => [1]) (fun _ => none)).1 (.ec ⟨.EC_VRF_P256_SHA256_TAI, [9]⟩)
    (by decide)

/-- C2: `getVRFProof` is deterministic for both families — the embedding
is a pure function of the stored key material and the input (the source
methods draw no randomness), so two calls return proofs with identical
bytes and identical VRF values. -/
theorem getVRFProof_deterministic (hashF : Bytes → Bytes) (input : Bytes) :
    (∀ (sk : RSASecretKey) (p1 p2 : RSAProof),
      sk.getVRFProof hashF input = some p1 → sk.getVRFProof hashF input = some p2 →
      p1.toBytes = p2.toBytes ∧ p1.getVRFValue hashF = p2.getVRFValue hashF) ∧
    (∀ (sk : ECSecretKey) (p1 p2 : ECProof),
      sk.getVRFProof hashF input = some p1 → sk.getVRFProof hashF input = some p2 →
      p1.toBytes = p2.toBytes ∧ p1.getVRFValue hashF = p2.getVRFValue hashF) := by
  constructor <;>
    (intro sk p1 p2 h1 h2; rw [h1] at h2; cases h2; exact ⟨rfl, rfl⟩)

set_option maxRecDepth 40000 in
theorem getVRFProof_deterministic_witness :
    RSAProof.toBytes ⟨.RSA_FDH_VRF_RSA2048_SHA256, bytesBE 0 256⟩ =
      RSAProof.toBytes ⟨.RSA_FDH_VRF_RSA2048_SHA256, bytesBE 0 256⟩ ∧
    RSAProof.getVRFValue (fun _ => List.replicate 32 0)
        ⟨.RSA_FDH_VRF_RSA2048_SHA256, bytesBE 0 256⟩ =
      RSAProof.getVRFValue (fun _ => List.replicate 32 0)
        ⟨.RSA_FDH_VRF_RSA2048_SHA256, bytesBE 0 256⟩ :=
  (getVRFProof_deterministic (fun _ => List.replicate 32 0) []).1
    (mkRSASecretKey (fun _ => List.replicate 32 0) .RSA_FDH_VRF_RSA2048_SHA256
      ⟨15, 3, 3⟩) _ _ (by decide) (by decide)

/-- C7 (amended): the EC proof buffer is filled by repeated
truncation/concatenation of
`digest(suiteString ∥ 0x01 ∥ publicKeyBytes ∥ input ∥ privateKeyBytes)`
and its length is exactly `fLen = 80` bytes as declared by the registry;
the registry's `ptLen + cLen + qLen` is 81, which does **not** equal the
proof length. -/
theorem ec_getVRFProof_structure (hashF : Bytes → Bytes) (sk : ECSecretKey)
    (ecdh : ECDHKey) (input : Bytes)
    (hecdh : sk.ecdh = some ecdh) (hinit : sk.isInitialized = true)
    (hT : hashF ([1] ++ [1] ++ ecdh.publicKey ++ input ++ sk.privateKeyBytes) ≠ []) :
    ∃ pr : ECProof, sk.getVRFProof hashF input = some pr ∧
      pr.proofBytes =
        (List.flatten (List.replicate 80
          (hashF ([1] ++ [1] ++ ecdh.publicKey ++ input ++
            sk.privateKeyBytes)))).take 80 ∧
      pr.proofBytes.length = 80 ∧
      ∀ pe : ECVRFParams, getECVRFParams sk.type = some pe →
        pe.fLen = 80 ∧ pe.ptLen + pe.cLen + pe.qLen = 81 := by
  have ht : sk.type = .EC_VRF_P256_SHA256_TAI := by
    apply (isECType_eq _).mp
    simp only [ECSecretKey.isInitialized, Bool.and_eq_true] at hinit
    exact hinit.2
  refine ⟨⟨sk.type,
    ecFill (hashF ([1] ++ [1] ++ ecdh.publicKey ++ input ++ sk.privateKeyBytes)) 80⟩,
    ?_, ?_, ?_, ?_⟩
  · rw [ECSecretKey.getVRFProof, if_neg (by simp [hinit]), hecdh, ht]
    rw [show getECVRFParams .EC_VRF_P256_SHA256_TAI =
      some ⟨"ECVRF-P256-SHA256-TAI", "P-256", 1, "sha256", [1], 32, 33, 16, 80, 32⟩
      from rfl]
  · exact ecFill_eq _ 80 hT (by norm_num)
  · exact ecFill_length _ 80 hT
  · intro pe hpe
    rw [ht] at hpe
    rw [show getECVRFParams .EC_VRF_P256_SHA256_TAI =
      some ⟨"ECVRF-P256-SHA256-TAI", "P-256", 1, "sha256", [1], 32, 33, 16, 80, 32⟩
      from rfl] at hpe
    cases hpe
    exact ⟨rfl, rfl⟩

set_option maxRecDepth 40000 in
/-- C7 counterexample: the registry declares `ptLen = 33`, `cLen = 16`,
`qLen = 32`, which sum to 81, while the generated proof buffer (and the
declared `fLen`) is 80 bytes — so the proof length is not
`ptLen + cLen + qLen`. -/
theorem ec_proof_length_mismatch :
    Option.map (fun p => (p.ptLen + p.cLen + p.qLen, p.fLen))
      (getECVRFParams .EC_VRF_P256_SHA256_TAI) = some (81, 80) ∧
    Option.map (fun pr : ECProof => pr.proofBytes.length)
      (ECSecretKey.getVRFProof (fun _ => List.replicate 32 5)
        ⟨.EC_VRF_P256_SHA256_TAI, some ⟨List.replicate 32 9, List.replicate 33 2⟩,
          List.replicate 32 9, true⟩ []) = some 80 ∧
    (81 : Nat) ≠ 80 := by
  refine ⟨rfl, by decide, by decide⟩

set_option maxRecDepth 40000 in
theorem ec_getVRFProof_structure_witness :
    ∃ pr : ECProof,
      ECSecretKey.getVRFProof (fun _ => List.replicate 32 5)
        ⟨.EC_VRF_P256_SHA256_TAI, some ⟨List.replicate 32 9, List.replicate 33 2⟩,
          List.replicate 32 9, true⟩ [] = some pr ∧
      pr.proofBytes.length = 80 := by
  obtain ⟨pr, h1, h2, h3, h4⟩ :=
    ec_getVRFProof_structure (fun _ => List.replicate 32 5)
      ⟨.EC_VRF_P256_SHA256_TAI, some ⟨List.replicate 32 9, List.replicate 33 2⟩,
        List.replicate 32 9, true⟩ ⟨List.replicate 32 9, List.replicate 33 2⟩ []
      rfl (by decide) (by decide)
  exact ⟨pr, h1, h3⟩

/-- C10: an EC public key imported through `publicKeyFromBytes` carries no
private-key bytes, so its `verifyVRFProof` runs the degenerate
public-key-only mode: it accepts every initialized EC-typed proof whose
80-byte buffer is not all zeros, returning the proof's own VRF value —
for every input and independently of the key's point. -/
theorem ec_imported_key_degenerate_verify (hashF : Bytes → Bytes)
    (derDecode : Bytes → Option RSAPubKey) (data : Bytes) (pk2 : PublicKeyObj)
    (himp : VRF.publicKeyFromBytes hashF derDecode .EC_VRF_P256_SHA256_TAI data =
      some pk2) :
    ∃ ec : ECPublicKey, pk2 = .ec ec ∧ ec.privateKeyBytes = [] ∧
      ∀ (input : Bytes) (p : ECProof),
        p.isInitialized = true → p.type = .EC_VRF_P256_SHA256_TAI →
        p.proofBytes.length = 80 → ¬ (∀ b ∈ p.proofBytes, b = 0) →
        hashF ([1] ++ [3] ++ p.proofBytes.take 33) ≠ [] →
        ec.verifyVRFProof hashF input (.ec p) =
          (true, ECProof.getVRFValue hashF p) := by
  simp only [VRF.publicKeyFromBytes, isECType] at himp
  rw [show (VRFType.EC_VRF_P256_SHA256_TAI == VRFType.EC_VRF_P256_SHA256_TAI) =
    true from rfl] at himp
  simp only [if_true] at himp
  rcases ecPublicKey_fromBytes_cases ⟨.UNKNOWN, [], []⟩ .EC_VRF_P256_SHA256_TAI data
    with hc | ⟨hc, hlen, hhead, _⟩
  · rw [hc] at himp; simp at himp
  · rw [hc] at himp
    simp only [Bool.true_and] at himp
    split at himp
    · next hinit2 =>
      cases himp
      refine ⟨⟨.EC_VRF_P256_SHA256_TAI, data, []⟩, rfl, rfl, ?_⟩
      intro input p hpinit htp hlen80 hnz hvne
      have hval : ECProof.getVRFValue hashF p =
          hashF ([1] ++ [3] ++ p.proofBytes.take 33) := by
        rw [ECProof.getVRFValue, if_neg (by simp [hpinit]), htp]
        rw [show getECVRFParams .EC_VRF_P256_SHA256_TAI =
          some ⟨"ECVRF-P256-SHA256-TAI", "P-256", 1, "sha256", [1], 32, 33, 16, 80, 32⟩
          from rfl]
      simp only [ECPublicKey.verifyVRFProof]
      rw [if_neg (by
        simp [ECPublicKey.isInitialized, isECType, ProofObj.isInitialized, hpinit,
          hlen])]
      rw [if_neg (by simp [ProofObj.getType, htp])]
      split
      · next heq => exact absurd heq (by decide)
      · next pe heq =>
        have hpe : pe = ⟨"ECVRF-P256-SHA256-TAI", "P-256", 1, "sha256", [1], 32,
            33, 16, 80, 32⟩ :=
          Option.some.inj (heq.symm.trans (show getECVRFParams
            .EC_VRF_P256_SHA256_TAI = some ⟨"ECVRF-P256-SHA256-TAI", "P-256", 1,
            "sha256", [1], 32, 33, 16, 80, 32⟩ from rfl))
        subst hpe
        split
        · next h =>
          exact absurd (by simpa [ProofObj.toBytes, ECProof.toBytes] using h) (by
            simp [hlen80])
        · split
          · next h0 =>
            exfalso
            apply hvne
            rw [← List.length_eq_zero]
            simpa [ProofObj.getVRFValue, hval] using h0
          · split
            · next hpv => exact absurd hpv (by simp)
            · split
              · next hall =>
                exfalso
                apply hnz
                intro b hb
                have hall2 := List.all_eq_true.mp hall
                simpa using hall2 b (by simpa [ProofObj.toBytes, ECProof.toBytes]
                  using hb)
              · simp only [ProofObj.getVRFValue]
    · exact absurd himp (by simp)

theorem ec_imported_key_degenerate_verify_witness :
    ECPublicKey.verifyVRFProof (fun _ => List.replicate 32 0)
      ⟨.EC_VRF_P256_SHA256_TAI, 2 :: List.replicate 32 0, []⟩ [7]
      (.ec ⟨.EC_VRF_P256_SHA256_TAI, List.replicate 80 1⟩) =
      (true, List.replicate 32 0) := by
  obtain ⟨ec, heq, hpriv, hver⟩ :=
    ec_imported_key_degenerate_verify (fun _ => List.replicate 32 0) (fun _ => none)
      (2 :: List.replicate 32 0)
      (.ec ⟨.EC_VRF_P256_SHA256_TAI, 2 :: List.replicate 32 0, []⟩) (by decide)
  have hthis := hver [7] ⟨.EC_VRF_P256_SHA256_TAI, List.replicate 80 1⟩ (by decide)
    rfl (by decide) (by decide) (by decide)
  injection heq with h
  rw [← h] at hthis
  rw [show ECProof.getVRFValue (fun _ => List.replicate 32 0)
    ⟨.EC_VRF_P256_SHA256_TAI, List.replicate 80 1⟩ = List.replicate 32 0
    from by decide] at hthis
  exact hthis

/-- C6: `pssVerify(mHash, em, emBits)` returns true exactly when the four
checks of the claim hold — trailing byte `0xbc`, cleared leading bits of
`maskedDB`, recovered `DB` equal to all-zero bytes followed by a single
`0x01` in the last position, and `H` (the `hLen` bytes before the trailing
byte) equal to `hash(8 zero bytes ∥ mHash)` — for an encoded message of
`emLen = ceil(emBits/8) ≥ hLen + 2` bytes (byte-valued, with a non-empty
digest whose MGF1 guard does not fire, so the JS code returns). -/
theorem pssVerify_iff (hashF : Bytes → Bytes) (mHash em : Bytes) (emBits : Nat)
    (hemlen : em.length = (emBits + 7) / 8)
    (hge : mHash.length + 2 ≤ (emBits + 7) / 8)
    (hbytes : ∀ b ∈ em, b < 256)
    (hne : ∀ x, hashF x ≠ [])
    (hguard : (emBits + 7) / 8 - mHash.length - 1 ≤ 4294967295 * (hashF []).length) :
    pssVerify hashF mHash em emBits = true ↔
      (em.getLast? = some 188 ∧
       (pssVerifyMaskedDB em ((emBits + 7) / 8) mHash.length).headD 0 &&&
         (255 ^^^ pssMask emBits) = 0 ∧
       (pssVerifyDB hashF em emBits mHash.length =
         List.replicate ((pssVerifyDB hashF em emBits mHash.length).length - 1) 0 ++
           [1]) ∧
       pssVerifyH em ((emBits + 7) / 8) mHash.length =
         hashF (List.replicate 8 0 ++ mHash)) := by
  simp only [pssVerify]
  rw [if_neg (by omega)]
  by_cases h1 : em.getLast? = some 188
  · rw [if_neg (not_ne_iff.mpr h1)]
    by_cases h2 : (pssVerifyMaskedDB em ((emBits + 7) / 8) mHash.length).headD 0 &&&
        (255 ^^^ pssMask emBits) = 0
    · rw [if_neg (not_ne_iff.mpr h2)]
      by_cases h3 : pssCheckDB (pssVerifyDB hashF em emBits mHash.length) = true
      · rw [if_neg (by simp [h3])]
        rw [pssCheckDB_iff] at h3
        rw [beq_iff_eq, List.append_nil]
        exact ⟨fun h => ⟨h1, h2, h3, h⟩, fun h => h.2.2.2⟩
      · rw [if_pos (by simpa using h3)]
        rw [pssCheckDB_iff] at h3
        constructor
        · intro h
          exact absurd h (by simp)
        · rintro ⟨_, _, hdb, _⟩
          exact (h3 hdb).elim
    · rw [if_pos h2]
      constructor
      · intro h
        exact absurd h (by simp)
      · rintro ⟨_, hmask, _, _⟩
        exact (h2 hmask).elim
  · rw [if_pos h1]
    constructor
    · intro h
      exact absurd h (by simp)
    · rintro ⟨hlast, _⟩
      exact (h1 hlast).elim

theorem pssVerify_iff_witness :
    pssVerify (fun _ => [0]) [5] [0, 0, 0, 188] 32 = true ↔
      (([0, 0, 0, 188] : Bytes).getLast? = some 188 ∧
       (pssVerifyMaskedDB [0, 0, 0, 188] 4 1).headD 0 &&& (255 ^^^ pssMask 32) = 0 ∧
       (pssVerifyDB (fun _ => [0]) [0, 0, 0, 188] 32 1 =
         List.replicate
           ((pssVerifyDB (fun _ => [0]) [0, 0, 0, 188] 32 1).length - 1) 0 ++ [1]) ∧
       pssVerifyH [0, 0, 0, 188] 4 1 = [0]) :=
  pssVerify_iff (fun _ => [0]) [5] [0, 0, 0, 188] 32 (by decide) (by decide)
    (by decide) (fun x => by simp) (by decide)
